import Mathlib

/-!
Verification development for the activity-timeline simulation core of the
mobile_forensic_image_generator repository.

The embedding covers:
  * the text humanizer (`communication.py`, class TextHumanizer),
  * the social-graph builder (`communication.py`, CommunicationEngine.generate_social_graph),
  * the location model (`geo.py`, GeoEngine.get_location_for_time),
  * the burst-mode event loop (`generator_manager.py`, GeneratorManager.run, lines 127-299).

Conventions of the embedding:
  * timestamps are seconds since the Unix epoch (`Nat`); Python datetime arithmetic
    with timedelta(seconds = n) becomes addition of `n`;
  * Python's global `random` is modelled by two oracle streams consumed with explicit
    cursors: `natR` drives random.randint / random.choice / random.sample, and `uR`
    drives random.random(), whose value is taken on a thousandths grid
    (`u % 1000` thousandths), which is exact for every probability literal that the
    source compares against (0.4, 0.05, 0.5, 0.6, 0.7);
  * random.uniform(lo, hi) is lo + (hi - lo) * u where u is the unit draw;
  * Python str values are Lean `String`s; `in`, `split`, `join`, `strip`, `replace`
    and `lower` are implemented structurally on the character list;
  * geographic coordinates are exact rationals;
  * side effects that only write files (media, receipts) are not modelled, but the
    random draws the event loop itself makes around them are;
  * fallible operations (random.choice on an empty sequence, random.sample with a
    negative size) surface as explicit error results.
-/

namespace MFIG

/-! ### Python random primitives -/

/-- Model of random.randint(a, b): a value in [a, b] selected by the oracle draw. -/
def pyRandint (a b r : ℕ) : ℕ := a + r % (b - a + 1)

/-- Model of random.choice: an element at an oracle-selected index; none on an empty
list, mirroring the IndexError that Python raises there. -/
def pyChoice (l : List α) (r : ℕ) : Option α := l.get? (r % l.length)

/-- Model of random.random(): the draw in thousandths, in [0, 1000). -/
def pyRandom (u : ℕ) : ℕ := u % 1000

/-- Model of random.uniform(lo, hi) given the unit draw in thousandths. -/
def pyUniform (lo hi : ℚ) (u : ℕ) : ℚ := lo + (hi - lo) * ((pyRandom u : ℚ) / 1000)

/-- Model of random.sample(pool, k): selection without replacement, one
oracle-driven index at a time.  Returns the selected elements together with the
advanced cursor into the `natR` stream. -/
def pySample (r : ℕ → ℕ) : ℕ → List α → ℕ → List α × ℕ
  | cur, _, 0 => ([], cur)
  | cur, pool, k + 1 =>
    match hp : pool with
    | [] => ([], cur)
    | _ :: _ =>
      have hlen : r cur % pool.length < pool.length :=
        Nat.mod_lt _ (by simp [hp])
      let x := pool.get ⟨r cur % pool.length, by rw [hp] at hlen ⊢; exact hlen⟩
      let (xs, cur2) := pySample r (cur + 1) (pool.eraseIdx (r cur % pool.length)) k
      (x :: xs, cur2)

/-! ### Character-level string operations mirroring Python str methods -/

/-- Whether the first list is a prefix of the second. -/
def prefixOfList : List Char → List Char → Bool
  | [], _ => true
  | _ :: _, [] => false
  | a :: as, b :: bs => a == b && prefixOfList as bs

/-- Model of Python's substring test needle in hay (on character lists). -/
def occursIn (needle : List Char) : List Char → Bool
  | [] => needle.isEmpty
  | c :: rest => prefixOfList needle (c :: rest) || occursIn needle rest

/-- Substring test on strings: occursStr hay needle models needle in hay. -/
def occursStr (hay needle : String) : Bool := occursIn needle.data hay.data

/-- Model of str.split(sep) for a single-character separator; keeps empty pieces,
exactly like Python. -/
def splitOnCharL (sep : Char) : List Char → List (List Char)
  | [] => [[]]
  | c :: rest =>
    let r := splitOnCharL sep rest
    if c == sep then [] :: r
    else
      match r with
      | [] => [[c]]
      | w :: ws => (c :: w) :: ws

/-- Model of sep.join(words) for a single-character separator. -/
def joinWithChar (sep : Char) : List (List Char) → List Char
  | [] => []
  | w :: ws =>
    match ws with
    | [] => w
    | _ :: _ => w ++ sep :: joinWithChar sep ws

/-- Fueled single-pass replacement; fuel is instantiated with the input length. -/
def replaceGo (needle repl : List Char) : ℕ → List Char → List Char
  | 0, l => l
  | _ + 1, [] => []
  | fuel + 1, c :: rest =>
    if needle ≠ [] ∧ prefixOfList needle (c :: rest) = true then
      repl ++ replaceGo needle repl fuel ((c :: rest).drop needle.length)
    else c :: replaceGo needle repl fuel rest

/-- Model of str.replace(needle, repl). -/
def pyReplace (s needle repl : String) : String :=
  String.mk (replaceGo needle.data repl.data s.data.length s.data)

/-- The characters stripped by strip(".,?!") in the humanizer. -/
def stripChars : List Char := ['.', ',', '?', '!']

/-- Model of str.strip(".,?!"). -/
def pyStrip (s : String) : String :=
  String.mk
    (((s.data.dropWhile fun c => stripChars.contains c).reverse.dropWhile
        fun c => stripChars.contains c).reverse)

/-- Model of str.lower(). -/
def lowerStr (s : String) : String := String.mk (s.data.map Char.toLower)

/-- Model of result.replace(".", "").replace(",", "") in the humanizer. -/
def removePunct (s : String) : String :=
  String.mk (s.data.filter fun c => !(c == '.' || c == ','))

/-- Two-digit zero padding used by strftime. -/
def pad2 (n : ℕ) : String := if n < 10 then "0" ++ toString n else toString n

/-- Model of strftime("%I:%M %p") on a timestamp in epoch seconds. -/
def fmt12 (t : ℕ) : String :=
  let h := t / 3600 % 24
  let m := t / 60 % 60
  let h12 := if h % 12 = 0 then 12 else h % 12
  let ap := if h < 12 then "AM" else "PM"
  pad2 h12 ++ ":" ++ pad2 m ++ " " ++ ap

/-! ### The oracle for the ambient randomness and the cancellation flag -/

/-- Oracle streams standing for the ambient random module and for the observations
of the cooperative cancellation flag.  `cancelFrom = some k` means the flag is
observed set from the k-th poll of the loop onwards (stop() sets it once and it
stays set); `none` means stop() is never called. -/
structure Oracle where
  natR : ℕ → ℕ
  uR : ℕ → ℕ
  cancelFrom : Option ℕ

/-- Whether the poll of is_cancelled at loop iteration i observes the flag set. -/
def isCancelled (o : Oracle) (i : ℕ) : Bool :=
  match o.cancelFrom with
  | none => false
  | some k => k ≤ i

/-! ### TextHumanizer (communication.py lines 10-72) -/

/-- self.slang_map of TextHumanizer. -/
def slangMap : List (String × String) :=
  [("you", "u"), ("are", "r"), ("thanks", "thx"), ("please", "pls"),
   ("because", "cuz"), ("perfect", "perf"), ("okay", "k")]

/-- self.typo_map of TextHumanizer. -/
def typoMap : List (Char × Char) :=
  [('a', 's'), ('s', 'a'), ('e', 'r'), ('i', 'o'), ('o', 'i'), ('m', 'n'), ('n', 'm')]

/-- self.emoji_map of TextHumanizer (insertion order preserved). -/
def emojiMap : List (String × List String) :=
  [("happy", ["😊", "😄"]), ("sad", ["😢", "☹️"]), ("angry", ["😡", "😤"]),
   ("love", ["❤️", "😍"]), ("food", ["🍔", "🍕"]), ("beer", ["🍺", "🍻"]),
   ("money", ["💸", "💰"]), ("late", ["🕒", "🏃"]), ("ok", ["👍", "👌"])]

/-- The slang pass of humanize (step 1): word-by-word substitution; a random draw
is consumed only when intensity allows slang and the cleaned word is in the map,
mirroring Python's short-circuit evaluation. -/
def humanizeWords (o : Oracle) (intensity : ℕ) :
    List (List Char) → ℕ → List (List Char) × ℕ
  | [], fc => ([], fc)
  | w :: ws, fc =>
    let clean := lowerStr (pyStrip (String.mk w))
    match (if 2 ≤ intensity then slangMap.lookup clean else none) with
    | some repl =>
      let q := pyRandom (o.uR fc)
      let w2 := if q < 600 then repl.data else w
      let (rest, fc2) := humanizeWords o intensity ws (fc + 1)
      (w2 :: rest, fc2)
    | none =>
      let (rest, fc2) := humanizeWords o intensity ws fc
      (w :: rest, fc2)

/-- TextHumanizer.inject_typos: adjacent-key replacement with probability 0.05 per
eligible character; the draw is consumed only when the lowered character is in the
typo map. -/
def inject_typos (o : Oracle) : List Char → ℕ → List Char × ℕ
  | [], fc => ([], fc)
  | c :: cs, fc =>
    match typoMap.lookup c.toLower with
    | some t =>
      let q := pyRandom (o.uR fc)
      let c2 := if q < 50 then t else c
      let (rest, fc2) := inject_typos o cs (fc + 1)
      (c2 :: rest, fc2)
    | none =>
      let (rest, fc2) := inject_typos o cs fc
      (c :: rest, fc2)

/-- The keyword scan of inject_emojis: one random.choice per matched key, in map
order. -/
def collectEmojis (o : Oracle) :
    List (String × List String) → String → ℕ → List String × ℕ
  | [], _, nc => ([], nc)
  | (key, icons) :: rest, lowText, nc =>
    if occursIn key.data lowText.data then
      let e := (pyChoice icons (o.natR nc)).getD ""
      let (es, nc2) := collectEmojis o rest lowText (nc + 1)
      (e :: es, nc2)
    else collectEmojis o rest lowText nc

/-- Concatenation used for "".join. -/
def joinStrings (l : List String) : String := l.foldl (fun a b => a ++ b) ""

/-- TextHumanizer.inject_emojis. -/
def inject_emojis (o : Oracle) (text : String) (intensity : ℕ) (nc : ℕ) :
    String × ℕ :=
  if intensity = 0 then (text, nc)
  else
    let (adds, nc1) := collectEmojis o emojiMap (lowerStr text) nc
    match adds with
    | [] => (text, nc1)
    | _ :: _ =>
      let (sampled, nc2) := pySample o.natR nc1 adds (min adds.length intensity)
      (text ++ " " ++ joinStrings sampled, nc2)

/-- TextHumanizer.humanize.  Returns the transformed text with the advanced
cursors (natR, uR). -/
def humanize (o : Oracle) (intensity : ℕ) (text : String) (nc fc : ℕ) :
    String × ℕ × ℕ :=
  if intensity = 0 then (text, nc, fc)
  else
    let (ws, fc1) := humanizeWords o intensity (splitOnCharL ' ' text.data) fc
    let result1 := String.mk (joinWithChar ' ' ws)
    let lc :=
      if 2 ≤ intensity then
        (if pyRandom (o.uR fc1) < 700 then lowerStr result1 else result1, fc1 + 1)
      else (result1, fc1)
    let pc :=
      (if pyRandom (o.uR lc.2) < 500 then removePunct lc.1 else lc.1, lc.2 + 1)
    let tc :=
      if 2 ≤ intensity then
        let r := inject_typos o pc.1.data pc.2
        (String.mk r.1, r.2)
      else pc
    let (result5, nc1) := inject_emojis o tc.1 intensity nc
    (result5, nc1, tc.2)

/-! ### GeoEngine (geo.py) -/

/-- Base coordinate: Brooklyn home. -/
def geoHome : ℚ × ℚ := (406781 / 10000, -739441 / 10000)

/-- Base coordinate: Midtown work. -/
def geoWork : ℚ × ℚ := (407488 / 10000, -739854 / 10000)

/-- Waypoint table of GeoEngine. -/
def wpCoffee : ℚ × ℚ := (406925 / 10000, -739910 / 10000)

/-- Waypoint: Chelsea gym. -/
def wpGym : ℚ × ℚ := (407410 / 10000, -739935 / 10000)

/-- Waypoint: Prospect Park. -/
def wpPark : ℚ × ℚ := (406602 / 10000, -739690 / 10000)

/-- Waypoint: supermarket. -/
def wpGrocery : ℚ × ℚ := (406850 / 10000, -739780 / 10000)

/-- GeoEngine._interpolate: linear interpolation between two points. -/
def interpolate (s e : ℚ × ℚ) (p : ℚ) : ℚ × ℚ :=
  (s.1 + (e.1 - s.1) * p, s.2 + (e.2 - s.2) * p)

/-- GeoEngine._jitter with the two uniform draws made explicit. -/
def jitter (lat lon amount : ℚ) (u1 u2 : ℕ) : ℚ × ℚ :=
  (lat + pyUniform (-amount) amount u1, lon + pyUniform (-amount) amount u2)

/-- Python datetime.weekday() (Monday = 0) from epoch seconds. -/
def weekdayOf (t : ℕ) : ℕ := (t / 86400 + 3) % 7

/-- Hour of day from epoch seconds. -/
def hourOf (t : ℕ) : ℕ := t / 3600 % 24

/-- Minute of hour from epoch seconds. -/
def minuteOf (t : ℕ) : ℕ := t / 60 % 60

/-- The schedule lookup of get_location_for_time: the target position as a pure
function of the timestamp (weekend rotation, weekday routine with transit
interpolation). -/
def targetPos (t : ℕ) : ℚ × ℚ :=
  let hour := hourOf t
  let minute := minuteOf t
  if 5 ≤ weekdayOf t then
    if 10 ≤ hour ∧ hour ≤ 12 then wpCoffee
    else if 13 ≤ hour ∧ hour ≤ 16 then wpPark
    else if 17 ≤ hour ∧ hour ≤ 18 then wpGrocery
    else geoHome
  else
    if 7 ≤ hour ∧ hour < 8 then interpolate geoHome wpCoffee ((minute : ℚ) / 60)
    else if 8 ≤ hour ∧ hour < 9 then interpolate wpCoffee geoWork ((minute : ℚ) / 60)
    else if 9 ≤ hour ∧ hour < 17 then geoWork
    else if 17 ≤ hour ∧ hour < 18 then interpolate geoWork wpGym ((minute : ℚ) / 60)
    else if 18 ≤ hour ∧ hour < 19 then wpGym
    else if 19 ≤ hour ∧ hour < 20 then interpolate wpGym geoHome ((minute : ℚ) / 60)
    else geoHome

/-- The mutable state of GeoEngine: self.last_pos (written on every call, reset to
home at construction). -/
structure GeoState where
  lastPos : ℚ × ℚ

/-- GeoEngine.get_location_for_time: resolves the scheduled target for the
timestamp, applies jitter of amount 0.0015, stores the result as last_pos and
returns it.  The two uniform draws are passed explicitly. -/
def get_location_for_time (st : GeoState) (t : ℕ) (u1 u2 : ℕ) :
    (ℚ × ℚ) × GeoState :=
  let tp := targetPos t
  let np := jitter tp.1 tp.2 (15 / 10000) u1 u2
  (np, ⟨np⟩)

/-! ### Social graph builder (communication.py lines 81-108) -/

/-- A contact record of the social graph (the per-name dict value). -/
structure Contact where
  role : String
  platforms : List String
  topics : List String
  phoneNumber : String
  email : String
deriving DecidableEq, Repr

/-- Python dict insertion on an association list: an existing key has its value
replaced in place, a new key is appended. -/
def dictInsert (g : List (String × Contact)) (k : String) (v : Contact) :
    List (String × Contact) :=
  if (g.map Prod.fst).contains k then
    g.map fun p => if p.1 = k then (k, v) else p
  else g ++ [(k, v)]

/-- Errors that the modelled Python code can raise. -/
inductive PyError where
  | valueError
  | indexError
deriving DecidableEq, Repr

/-- The name pool [f"{fn} {ln}" for fn in first_names for ln in last_names
if f"{fn} {ln}" != owner_name]. -/
def namePool (ownerName : String) (firstNames lastNames : List String) :
    List String :=
  firstNames.flatMap fun fn =>
    lastNames.filterMap fun ln =>
      let n := fn ++ " " ++ ln
      if n ≠ ownerName then some n else none

/-- How many synthetic faker names the padding loop appends: the while loop runs
until the pool length reaches network_size. -/
def padCount (ownerName : String) (firstNames lastNames : List String)
    (networkSize : ℤ) : ℕ :=
  (networkSize - (namePool ownerName firstNames lastNames).length).toNat

/-- The per-selected-name contact construction of generate_social_graph. -/
def buildContact (installedApps : List String) (natR : ℕ → ℕ)
    (fakePhone fakeEmail : ℕ → String) (cur idx : ℕ) : Contact :=
  let role := (pyChoice ["Colleague", "Friend", "Family"] (natR cur)).getD "Friend"
  let validPlatforms :=
    ["Messages (SMS)", "Phone"] ++
      (if installedApps.contains "WhatsApp" then ["WhatsApp"] else [])
  let topics :=
    if role = "Colleague" then ["project_kickoff"] else ["lunch_sushi", "weekend_plans"]
  { role := role, platforms := validPlatforms, topics := topics,
    phoneNumber := fakePhone idx, email := fakeEmail idx }

/-- The insertion loop over the selected contacts. -/
def insertContacts (installedApps : List String) (natR : ℕ → ℕ)
    (fakePhone fakeEmail : ℕ → String) :
    List String → ℕ → ℕ → List (String × Contact) → List (String × Contact)
  | [], _, _, g => g
  | name :: rest, cur, idx, g =>
    insertContacts installedApps natR fakePhone fakeEmail rest (cur + 1) (idx + 1)
      (dictInsert g name (buildContact installedApps natR fakePhone fakeEmail cur idx))

/-- CommunicationEngine.generate_social_graph.  The faker is modelled by the
streams fakeName / fakePhone / fakeEmail; network_size is an integer because the
Python caller may pass any int.  random.sample raises ValueError when its size
argument min(len(available), network_size) is negative. -/
def generate_social_graph (ownerName : String) (firstNames lastNames : List String)
    (networkSize : ℤ) (installedApps : List String)
    (fakeName fakePhone fakeEmail : ℕ → String) (natR : ℕ → ℕ) :
    Except PyError (List (String × Contact)) :=
  let available :=
    namePool ownerName firstNames lastNames ++
      (List.range (padCount ownerName firstNames lastNames networkSize)).map fakeName
  let k : ℤ := min (available.length : ℤ) networkSize
  if k < 0 then Except.error PyError.valueError
  else
    let (selected, cur) := pySample natR 0 available k.toNat
    Except.ok (insertContacts installedApps natR fakePhone fakeEmail selected cur 0 [])

/-! ### Event records (the dict-shaped events of GeneratorManager.run) -/

/-- Direction strings "Incoming" / "Outgoing". -/
inductive Direction where
  | incoming
  | outgoing
deriving DecidableEq, Repr

/-- Call status strings "Connected" / "Missed". -/
inductive CallStatus where
  | connected
  | missed
deriving DecidableEq, Repr

/-- An emitted message event (entry of all_messages).  The timestamp is in epoch
seconds; the source stores its strftime rendering, which is injective at second
granularity. -/
structure Message where
  platform : String
  sender : String
  recipient : String
  senderNum : String
  recipientNum : String
  direction : Direction
  body : String
  timestamp : ℕ
  attachment : Option String
deriving DecidableEq, Repr

/-- An emitted call event (entry of all_calls). -/
structure Call where
  caller : String
  callerNum : String
  direction : Direction
  status : CallStatus
  duration : ℕ
  timestamp : ℕ
deriving DecidableEq, Repr

/-- An emitted location sample (entry of geo_points). -/
structure GeoSample where
  timestamp : ℕ
  latitude : ℚ
  longitude : ℚ
deriving DecidableEq, Repr

/-- An entry of browser_history. -/
structure BrowserEntry where
  url : String
  title : String
  timestamp : ℕ
deriving DecidableEq, Repr

/-- The payload dict of a burst_queue entry (both enqueue sites set type "msg"). -/
structure MsgData where
  type : String
  platform : String
  sender : String
  recipient : String
  senderNum : String
  recipientNum : String
  direction : Direction
  body : String
  attachment : Option String
deriving DecidableEq, Repr

/-- One (role, content) line of a canned conversation template. -/
structure ConvoLine where
  role : String
  content : String
deriving DecidableEq, Repr

/-- The scenario catalog as the loop uses it: the conversations table plus its
mandatory entry at key "default" (scenarios['conversations']['default']). -/
structure Scenarios where
  conversations : List (String × List ConvoLine)
  dflt : List ConvoLine
deriving Repr

/-- The run parameters of GeneratorManager.run that the burst loop reads, with
the social graph already built and topic-filtered. -/
structure Params where
  ownerName : String
  startDate : ℕ
  endDate : ℕ
  numMessages : ℕ
  graph : List (String × Contact)
  scen : Scenarios
  commonUrls : List (String × String)

/-- The local state of the burst loop. -/
structure RunState where
  time : ℕ
  queue : List (ℕ × MsgData)
  msgs : List Message
  calls : List Call
  geo : List GeoSample
  browser : List BrowserEntry
  msgCount : ℕ
  lastPos : ℚ × ℚ
  natCur : ℕ
  uCur : ℕ
  iter : ℕ

/-- The outcome of the burst loop.  `done` reaches the artifact-writing stage
with the accumulated collections; `cancelled` is the bare return taken when the
is_cancelled poll fires (the constructor records the local collections at that
point so that theorems can speak about what the return discards); `err` is an
uncaught exception such as random.choice on an empty sequence. -/
inductive RunResult where
  | done (msgs : List Message) (calls : List Call) (geo : List GeoSample)
      (browser : List BrowserEntry)
  | cancelled (msgs : List Message) (calls : List Call) (geo : List GeoSample)
      (browser : List BrowserEntry)
  | err

/-- The messages visible in an outcome. -/
def resMsgs : RunResult → List Message
  | RunResult.done m _ _ _ => m
  | RunResult.cancelled m _ _ _ => m
  | RunResult.err => []

/-- The calls visible in an outcome. -/
def resCalls : RunResult → List Call
  | RunResult.done _ c _ _ => c
  | RunResult.cancelled _ c _ _ => c
  | RunResult.err => []

/-- The geo samples visible in an outcome. -/
def resGeo : RunResult → List GeoSample
  | RunResult.done _ _ g _ => g
  | RunResult.cancelled _ _ g _ => g
  | RunResult.err => []

/-- What the run hands to the artifact writers (create_sms_db, generate_call_log,
generate_track_file, ...): only a normal loop exit reaches that stage; the
cancellation return and an exception hand off nothing. -/
def handedOff :
    RunResult → Option (List Message × List Call × List GeoSample × List BrowserEntry)
  | RunResult.done m c g b => some (m, c, g, b)
  | RunResult.cancelled _ _ _ _ => none
  | RunResult.err => none

/-! ### The burst loop (generator_manager.py lines 144-280) -/

/-- The fixed body of the missed-call follow-up text. -/
def followBody : String := "Sorry I missed you."

/-- The follow-up message enqueued for a missed incoming call
(generator_manager.py lines 177-184). -/
def followUpMsg (P : Params) (partner : String) (pdata : Contact) : MsgData :=
  { type := "msg", platform := "Messages (SMS)", sender := P.ownerName,
    recipient := partner, senderNum := "Self", recipientNum := pdata.phoneNumber,
    direction := Direction.outgoing, body := followBody, attachment := none }

/-- The content of a conversation line after the time-placeholder substitution
(lines 207-210): content.replace of the placeholder with strftime("%I:%M %p") of
burst_clock + 2 h, guarded by the containment test.  `k` is that shifted
timestamp. -/
def lineContent (line : ConvoLine) (k : ℕ) : String :=
  if occursStr line.content "{time}" then pyReplace line.content "{time}" (fmt12 k)
  else line.content

/-- The message event built from a popped queue entry. -/
def msgOfData (d : MsgData) (ts : ℕ) : Message :=
  { platform := d.platform, sender := d.sender, recipient := d.recipient,
    senderNum := d.senderNum, recipientNum := d.recipientNum,
    direction := d.direction, body := d.body, timestamp := ts,
    attachment := d.attachment }

/-- The call branch of the scheduler (platform "Phone", lines 167-192): one call
event at the current clock; a random direction, then a duration draw; an
incoming call consumes one probability draw and becomes Missed with probability
0.4, in which case the duration is forced to 0 and the follow-up text is
enqueued five minutes later. -/
def scheduleCall (P : Params) (o : Oracle) (partner : String) (pdata : Contact)
    (s : RunState) : RunState :=
  let direction :=
    (pyChoice [Direction.incoming, Direction.outgoing] (o.natR s.natCur)).getD
      Direction.incoming
  let nc1 := s.natCur + 1
  let duration := pyRandint 10 600 (o.natR nc1)
  let nc2 := nc1 + 1
  if direction = Direction.incoming then
    let q := pyRandom (o.uR s.uCur)
    let fc1 := s.uCur + 1
    if q < 400 then
      { s with
        calls := s.calls ++
          [{ caller := partner, callerNum := pdata.phoneNumber,
             direction := Direction.incoming, status := CallStatus.missed,
             duration := 0, timestamp := s.time }],
        queue := s.queue ++ [(s.time + 300, followUpMsg P partner pdata)],
        natCur := nc2, uCur := fc1 }
    else
      { s with
        calls := s.calls ++
          [{ caller := partner, callerNum := pdata.phoneNumber,
             direction := Direction.incoming, status := CallStatus.connected,
             duration := duration, timestamp := s.time }],
        natCur := nc2, uCur := fc1 }
  else
    { s with
      calls := s.calls ++
        [{ caller := P.ownerName, callerNum := "Self", direction := direction,
           status := CallStatus.connected, duration := duration,
           timestamp := s.time }],
      natCur := nc2 }

/-- The accumulator threaded through the message-flow expansion (burst_clock,
burst_queue, browser_history, the geo engine state and the random cursors). -/
structure BurstAcc where
  clock : ℕ
  queue : List (ℕ × MsgData)
  browser : List BrowserEntry
  lastPos : ℚ × ℚ
  natCur : ℕ
  uCur : ℕ

/-- Expansion of one conversation line (lines 196-238): a 10-90 s delay, the
role-dependent sender fields, the optional strftime substitution of the time
placeholder, the attachment heuristic (an image extension generates the image at
the burst timestamp, which consumes a location call; a document extension adds a
viewer entry to browser_history 30 s earlier), humanization at intensity 1, and
the enqueue at the burst clock. -/
def expandLine (P : Params) (o : Oracle) (partner : String) (pdata : Contact)
    (platform : String) (line : ConvoLine) (acc : BurstAcc) : BurstAcc :=
  let delay := pyRandint 10 90 (o.natR acc.natCur)
  let nc1 := acc.natCur + 1
  let clock2 := acc.clock + delay
  let isOwner := line.role = "Owner"
  let sender := if isOwner then P.ownerName else partner
  let recipient := if isOwner then partner else P.ownerName
  let direction := if isOwner then Direction.outgoing else Direction.incoming
  let sNum := if isOwner then "Self" else pdata.phoneNumber
  let rNum := if isOwner then pdata.phoneNumber else "Self"
  let content := lineContent line (clock2 + 7200)
  let att :=
    if occursStr content "." ∧ content.length < 40 then
      let ext :=
        String.mk (((splitOnCharL '.' content.data).getLast?).getD [] |>.map Char.toLower)
      if ext = "jpg" ∨ ext = "png" ∨ ext = "jpeg" then
        let res := get_location_for_time ⟨acc.lastPos⟩ clock2 (o.uR acc.uCur)
          (o.uR (acc.uCur + 1))
        (some ("/sdcard/DCIM/" ++ content), acc.browser, res.2.lastPos, acc.uCur + 2)
      else if ext = "pdf" ∨ ext = "docx" then
        (none, acc.browser ++
          [{ url := "https://docs.google.com/viewer?file=" ++ content,
             title := "View - " ++ content, timestamp := clock2 - 30 }],
         acc.lastPos, acc.uCur)
      else (none, acc.browser, acc.lastPos, acc.uCur)
    else (none, acc.browser, acc.lastPos, acc.uCur)
  let hr := humanize o 1 content nc1 att.2.2.2
  { clock := clock2,
    queue := acc.queue ++
      [(clock2,
        { type := "msg", platform := platform, sender := sender,
          recipient := recipient, senderNum := sNum, recipientNum := rNum,
          direction := direction, body := hr.1, attachment := att.1 })],
    browser := att.2.1, lastPos := att.2.2.1, natCur := hr.2.1, uCur := hr.2.2 }

/-- The for-loop over the conversation lines. -/
def expandLines (P : Params) (o : Oracle) (partner : String) (pdata : Contact)
    (platform : String) (lines : List ConvoLine) (acc : BurstAcc) : BurstAcc :=
  lines.foldl (fun a l => expandLine P o partner pdata platform l a) acc

/-- The message branch of the scheduler: burst_clock starts at the advanced
current time, the lines are expanded into the burst queue, and only the queue,
browser history, geo engine state and cursors of the loop state change. -/
def expandConvo (P : Params) (o : Oracle) (partner : String) (pdata : Contact)
    (platform : String) (lines : List ConvoLine) (s : RunState) : RunState :=
  let acc := expandLines P o partner pdata platform lines
    { clock := s.time, queue := s.queue, browser := s.browser,
      lastPos := s.lastPos, natCur := s.natCur, uCur := s.uCur }
  { s with
    queue := acc.queue, browser := acc.browser, lastPos := acc.lastPos,
    natCur := acc.natCur, uCur := acc.uCur }

/-- Step 1 of a loop iteration (lines 148-238): when the burst queue is empty,
advance the clock by the 30 min - 3 h gap; break out of the loop when that
crosses end_time; otherwise pick partner, platform and topic and expand either
the call branch or the message branch.  A nonempty queue leaves the state
untouched. -/
def schedulePhase (P : Params) (o : Oracle) (s : RunState) :
    Sum RunResult RunState :=
  match s.queue with
  | _ :: _ => Sum.inr s
  | [] =>
    let gap := pyRandint 1800 10800 (o.natR s.natCur)
    let t2 := s.time + gap
    if P.endDate ≤ t2 then
      Sum.inl (RunResult.done s.msgs s.calls s.geo s.browser)
    else
      match pyChoice (P.graph.map Prod.fst) (o.natR (s.natCur + 1)) with
      | none => Sum.inl RunResult.err
      | some partner =>
        match P.graph.lookup partner with
        | none => Sum.inl RunResult.err
        | some pdata =>
          match pyChoice pdata.platforms (o.natR (s.natCur + 2)) with
          | none => Sum.inl RunResult.err
          | some platform =>
            match pyChoice pdata.topics (o.natR (s.natCur + 3)) with
            | none => Sum.inl RunResult.err
            | some topic =>
              let lines := (P.scen.conversations.lookup topic).getD P.scen.dflt
              let s4 := { s with time := t2, natCur := s.natCur + 4 }
              if platform = "Phone" then
                Sum.inr (scheduleCall P o partner pdata s4)
              else
                Sum.inr (expandConvo P o partner pdata platform lines s4)

/-- Step 2 of a loop iteration (lines 241-274): pop the first queue entry, take
a location sample at its timestamp, append the message (counting it), then the
two 5 % draws for a financial receipt and for incidental browser activity. -/
def processQueue (P : Params) (o : Oracle) (s : RunState) : RunState :=
  match s.queue with
  | [] => s
  | (ts, d) :: rest =>
    let res := get_location_for_time ⟨s.lastPos⟩ ts (o.uR s.uCur) (o.uR (s.uCur + 1))
    let geo2 := s.geo ++
      [{ timestamp := ts, latitude := res.1.1, longitude := res.1.2 }]
    let msgs2 := if d.type = "msg" then s.msgs ++ [msgOfData d ts] else s.msgs
    let cnt2 := if d.type = "msg" then s.msgCount + 1 else s.msgCount
    let fc1 := s.uCur + 2
    let qb := pyRandom (o.uR (fc1 + 1))
    let bn :=
      if qb < 50 then
        match pyChoice P.commonUrls (o.natR s.natCur) with
        | some site =>
          (s.browser ++ [{ url := site.1, title := site.2, timestamp := ts }],
           s.natCur + 1)
        | none => (s.browser, s.natCur)
      else (s.browser, s.natCur)
    { s with
      queue := rest, geo := geo2, msgs := msgs2, msgCount := cnt2,
      browser := bn.1, lastPos := res.2.lastPos, natCur := bn.2, uCur := fc1 + 2 }

/-- The tail of a loop iteration after scheduling: queue processing followed by
the message-quota break (lines 241-280). -/
def stepTail (P : Params) (o : Oracle) (s5 : RunState) : Sum RunResult RunState :=
  let s6 := processQueue P o s5
  if P.numMessages ≤ s6.msgCount then
    Sum.inl (RunResult.done s6.msgs s6.calls s6.geo s6.browser)
  else Sum.inr { s6 with iter := s6.iter + 1 }

/-- One iteration of the while loop: the loop condition current_time < end_time,
the cooperative cancellation poll, scheduling, queue processing, and the
message-quota break. -/
def stepRun (P : Params) (o : Oracle) (s : RunState) : Sum RunResult RunState :=
  if P.endDate ≤ s.time then
    Sum.inl (RunResult.done s.msgs s.calls s.geo s.browser)
  else if isCancelled o s.iter then
    Sum.inl (RunResult.cancelled s.msgs s.calls s.geo s.browser)
  else
    match schedulePhase P o s with
    | Sum.inl r => Sum.inl r
    | Sum.inr s5 => stepTail P o s5

/-- The while loop, run for at most `fuel` iterations; `none` means the fuel ran
out before the loop exited. -/
def runLoopFuel (P : Params) (o : Oracle) : ℕ → RunState → Option RunResult
  | 0, _ => none
  | n + 1, s =>
    match stepRun P o s with
    | Sum.inl r => some r
    | Sum.inr s2 => runLoopFuel P o n s2

/-- The loop state at entry: the clock at start_date, everything else empty, the
geo engine freshly constructed with last_pos = home. -/
def initState (P : Params) : RunState :=
  { time := P.startDate, queue := [], msgs := [], calls := [], geo := [],
    browser := [], msgCount := 0, lastPos := geoHome, natCur := 0, uCur := 0,
    iter := 0 }

/-! ### Lemmas about the string primitives -/

theorem splitOnCharL_ne_nil (sep : Char) : ∀ l : List Char, splitOnCharL sep l ≠ [] := by
  intro l
  induction l with
  | nil => simp [splitOnCharL]
  | cons c rest ih =>
    simp only [splitOnCharL]
    split
    · simp
    · split
      · simp
      · simp

theorem joinWith_splitOnCharL (sep : Char) : ∀ l : List Char,
    joinWithChar sep (splitOnCharL sep l) = l := by
  intro l
  induction l with
  | nil => rfl
  | cons c rest ih =>
    have hne := splitOnCharL_ne_nil sep rest
    simp only [splitOnCharL]
    by_cases h : (c == sep) = true
    · rw [if_pos h]
      cases hr : splitOnCharL sep rest with
      | nil => exact absurd hr hne
      | cons w ws =>
        have hj : joinWithChar sep ([] :: w :: ws) = sep :: joinWithChar sep (w :: ws) := rfl
        rw [hj, ← hr, ih]
        have : c = sep := by simpa using h
        rw [this]
    · rw [if_neg h]
      cases hr : splitOnCharL sep rest with
      | nil => exact absurd hr hne
      | cons w ws =>
        rw [hr] at ih
        cases ws with
        | nil =>
          have hw : joinWithChar sep [w] = w := rfl
          rw [hw] at ih
          subst ih
          rfl
        | cons w2 ws2 =>
          have hj : joinWithChar sep ((c :: w) :: w2 :: ws2) =
              (c :: w) ++ sep :: joinWithChar sep (w2 :: ws2) := rfl
          have hj2 : joinWithChar sep (w :: w2 :: ws2) =
              w ++ sep :: joinWithChar sep (w2 :: ws2) := rfl
          rw [hj2] at ih
          simp [hj, ← ih]

theorem occursIn_cons (needle : List Char) (c : Char) (rest : List Char) :
    occursIn needle (c :: rest) =
      (prefixOfList needle (c :: rest) || occursIn needle rest) := rfl

theorem replaceGo_mem (needle repl : List Char) (x : Char) (hx : x ∈ repl) :
    ∀ (fuel : ℕ) (l : List Char), l.length ≤ fuel → needle ≠ [] →
      occursIn needle l = true → x ∈ replaceGo needle repl fuel l := by
  intro fuel
  induction fuel with
  | zero =>
    intro l hl hne hocc
    have : l = [] := List.length_eq_zero.mp (Nat.le_zero.mp hl)
    subst this
    simp [occursIn, List.isEmpty_iff] at hocc
    exact absurd hocc hne
  | succ fuel ih =>
    intro l hl hne hocc
    cases l with
    | nil =>
      simp [occursIn, List.isEmpty_iff] at hocc
      exact absurd hocc hne
    | cons c rest =>
      simp only [replaceGo]
      split
      · exact List.mem_append_left _ hx
      · rename_i hcond
        have hpre : prefixOfList needle (c :: rest) ≠ true := by
          intro hp
          exact hcond ⟨hne, hp⟩
        have hocc2 : occursIn needle rest = true := by
          rw [occursIn_cons] at hocc
          rcases Bool.or_eq_true_iff.mp hocc with h | h
          · exact absurd h hpre
          · exact h
        have hlen : rest.length ≤ fuel := by
          simpa using Nat.le_of_succ_le_succ hl
        exact List.mem_cons_of_mem _ (ih rest hlen hne hocc2)

theorem removePunct_no_dot (s : String) : '.' ∉ (removePunct s).data := by
  intro h
  simp only [removePunct] at h
  have := List.of_mem_filter h
  simp at this

theorem pyChoice_getD_mem {α : Type} (l : List α) (r : ℕ) (d : α) (hl : l ≠ []) :
    (pyChoice l r).getD d ∈ l := by
  have hlen : 0 < l.length := List.length_pos.mpr hl
  have hlt : r % l.length < l.length := Nat.mod_lt _ hlen
  simp only [pyChoice]
  rw [List.get?_eq_get hlt]
  exact List.get_mem l _ hlt

theorem pySample_mem {α : Type} (r : ℕ → ℕ) :
    ∀ (k cur : ℕ) (pool : List α), ∀ x ∈ (pySample r cur pool k).1, x ∈ pool := by
  intro k
  induction k with
  | zero => intro cur pool x hx; simp [pySample] at hx
  | succ k ih =>
    intro cur pool x hx
    cases pool with
    | nil => simp [pySample] at hx
    | cons a as =>
      simp only [pySample] at hx
      rcases List.mem_cons.mp hx with h | h
      · subst h; exact List.get_mem _ _ _
      · have := ih (cur + 1) ((a :: as).eraseIdx (r cur % (a :: as).length)) x h
        exact (List.eraseIdx_sublist _ _).subset this

theorem collectEmojis_mem (o : Oracle) :
    ∀ (m : List (String × List String)) (lt : String) (nc : ℕ),
      (∀ p ∈ m, p.2 ≠ []) →
      ∀ e ∈ (collectEmojis o m lt nc).1, ∃ p ∈ m, e ∈ p.2 := by
  intro m
  induction m with
  | nil => intro lt nc _ e he; simp [collectEmojis] at he
  | cons ki rest ih =>
    intro lt nc hm e he
    simp only [collectEmojis] at he
    by_cases hocc : occursIn ki.1.data lt.data = true
    · rw [if_pos hocc] at he
      rcases List.mem_cons.mp he with h | h
      · subst h
        refine ⟨ki, List.mem_cons_self _ _, ?_⟩
        exact pyChoice_getD_mem _ _ _ (hm ki (List.mem_cons_self _ _))
      · rcases ih lt (nc + 1) (fun p hp => hm p (List.mem_cons_of_mem _ hp)) e h with
          ⟨p, hp, hep⟩
        exact ⟨p, List.mem_cons_of_mem _ hp, hep⟩
    · rw [if_neg hocc] at he
      rcases ih lt nc (fun p hp => hm p (List.mem_cons_of_mem _ hp)) e he with ⟨p, hp, hep⟩
      exact ⟨p, List.mem_cons_of_mem _ hp, hep⟩

theorem emojiMap_icons : ∀ p ∈ emojiMap, ∀ e ∈ p.2,
    e.data ≠ [] ∧ e.data.getLast? ≠ some '.' := by decide

theorem pySample_one {α : Type} (r : ℕ → ℕ) (cur : ℕ) (pool : List α)
    (hp : pool ≠ []) : ∃ x ∈ pool, (pySample r cur pool 1).1 = [x] := by
  cases pool with
  | nil => exact absurd rfl hp
  | cons a as =>
    have hlt : r cur % (a :: as).length < (a :: as).length := Nat.mod_lt _ (by simp)
    exact ⟨(a :: as).get ⟨r cur % (a :: as).length, hlt⟩, List.get_mem _ _ _,
      by simp [pySample]⟩

theorem followBody_getLast : followBody.data.getLast? = some '.' := by decide

/-- inject_emojis at intensity 1 returns the follow-up body only on the
follow-up body itself: an appended emoji changes the final character. -/
theorem inject_emojis_one_eq (o : Oracle) (t : String) (nc : ℕ)
    (h : (inject_emojis o t 1 nc).1 = followBody) : t = followBody := by
  simp only [inject_emojis] at h
  rw [if_neg (by norm_num)] at h
  cases hadds : (collectEmojis o emojiMap (lowerStr t) nc).1 with
  | nil => rw [hadds] at h; exact h
  | cons a as =>
    rw [hadds] at h
    exfalso
    have hmin : min (a :: as).length 1 = 1 := Nat.min_eq_right (by simp)
    rw [hmin] at h
    rcases pySample_one o.natR (collectEmojis o emojiMap (lowerStr t) nc).2 (a :: as)
      (by simp) with ⟨x, hxmem, hxeq⟩
    rw [hxeq] at h
    have hxmem2 : x ∈ (collectEmojis o emojiMap (lowerStr t) nc).1 := by
      rw [hadds]; exact hxmem
    have hic : ∀ p ∈ emojiMap, p.2 ≠ [] := by decide
    rcases collectEmojis_mem o emojiMap (lowerStr t) nc hic x hxmem2 with ⟨p, hp, hxp⟩
    rcases emojiMap_icons p hp x hxp with ⟨hxne, hxlast⟩
    have hjoin : joinStrings [x] = x := by
      simp [joinStrings]
    rw [hjoin] at h
    have hlast : (t ++ " " ++ x).data.getLast? = x.data.getLast? := by
      rw [String.data_append, String.data_append]
      exact List.getLast?_append_of_ne_nil _ hxne
    have h2 : t ++ " " ++ x = followBody := by simpa using h
    rw [h2, followBody_getLast] at hlast
    exact hxlast hlast.symm

theorem string_mk_data (s : String) : String.mk s.data = s := rfl

theorem humanizeWords_one (o : Oracle) :
    ∀ (ws : List (List Char)) (fc : ℕ), humanizeWords o 1 ws fc = (ws, fc) := by
  intro ws
  induction ws with
  | nil => intro fc; rfl
  | cons w ws ih =>
    intro fc
    simp only [humanizeWords]
    rw [if_neg (by norm_num)]
    simp [ih fc]

/-- humanize at intensity 1 maps a text to the follow-up body only if the text
already is the follow-up body: the slang, lowercase and typo passes are off at
this intensity, punctuation removal deletes the final period, and an appended
emoji changes the final character. -/
theorem humanize_one_eq (o : Oracle) (text : String) (nc fc : ℕ)
    (h : (humanize o 1 text nc fc).1 = followBody) : text = followBody := by
  have h1 : (humanize o 1 text nc fc).1 =
      (inject_emojis o (if pyRandom (o.uR fc) < 500 then removePunct text else text)
        1 nc).1 := by
    simp only [humanize, humanizeWords_one, joinWith_splitOnCharL, string_mk_data]
    norm_num
  rw [h1] at h
  by_cases hq : pyRandom (o.uR fc) < 500
  · rw [if_pos hq] at h
    have h2 := inject_emojis_one_eq o _ nc h
    exfalso
    have hdot : '.' ∈ (removePunct text).data := by
      rw [h2]; decide
    exact removePunct_no_dot text hdot
  · rw [if_neg hq] at h
    exact inject_emojis_one_eq o _ nc h

theorem fmt12_colon (t : ℕ) : ':' ∈ (fmt12 t).data := by
  simp only [fmt12, String.data_append, List.mem_append]
  left; left; left; right
  decide

theorem followBody_no_colon : ':' ∉ followBody.data := by decide

theorem pyReplace_colon (s rep : String) (hocc : occursStr s "{time}" = true)
    (hrep : ':' ∈ rep.data) : ':' ∈ (pyReplace s "{time}" rep).data := by
  simp only [pyReplace]
  exact replaceGo_mem _ _ _ hrep _ _ (le_refl _) (by decide) hocc

/-- A conversation line whose template content differs from the follow-up body
never produces the follow-up body after the time substitution and humanization. -/
theorem humanized_line_ne (o : Oracle) (line : ConvoLine) (k nc fc : ℕ)
    (hc : line.content ≠ followBody) :
    (humanize o 1 (lineContent line k) nc fc).1 ≠ followBody := by
  intro h
  have h2 := humanize_one_eq o _ nc fc h
  simp only [lineContent] at h2
  by_cases hto : occursStr line.content "{time}" = true
  · rw [if_pos hto] at h2
    have hcol := pyReplace_colon line.content (fmt12 k) hto (fmt12_colon k)
    rw [h2] at hcol
    exact followBody_no_colon hcol
  · rw [if_neg hto] at h2
    exact hc h2

/-! ### The follow-up message shape -/

/-- The distinguishing shape of the missed-call follow-up among emitted
messages: the default SMS platform, outgoing direction, and the fixed apology
body. -/
def followShape (m : Message) : Bool :=
  m.platform == "Messages (SMS)" && decide (m.direction = Direction.outgoing) &&
    m.body == followBody

/-- The same shape on a queued payload, together with its type tag. -/
def qFollowShape (d : MsgData) : Bool :=
  d.type == "msg" && (d.platform == "Messages (SMS)" &&
    decide (d.direction = Direction.outgoing) && d.body == followBody)

theorem followShape_msgOfData (d : MsgData) (ts : ℕ) (htype : d.type = "msg") :
    followShape (msgOfData d ts) = qFollowShape d := by
  simp [followShape, qFollowShape, msgOfData, htype]

theorem qFollowShape_followUpMsg (P : Params) (partner : String) (pdata : Contact) :
    qFollowShape (followUpMsg P partner pdata) = true := by
  simp [qFollowShape, followUpMsg]

/-- The scenario-catalog side condition under which follow-up texts are
identifiable: no canned conversation line uses the apology body as its template
content.  (An adversarial catalog could fake the follow-up's shape.) -/
def GoodScen (P : Params) : Prop :=
  (∀ q ∈ P.scen.conversations, ∀ l ∈ q.2, l.content ≠ followBody) ∧
    ∀ l ∈ P.scen.dflt, l.content ≠ followBody

/-! ### Characterization lemmas for the loop phases -/

theorem pyRandint_ge (a b r : ℕ) : a ≤ pyRandint a b r := Nat.le_add_right _ _

theorem expandLine_clock (P : Params) (o : Oracle) (partner : String)
    (pdata : Contact) (platform : String) (line : ConvoLine) (acc : BurstAcc) :
    (expandLine P o partner pdata platform line acc).clock =
      acc.clock + pyRandint 10 90 (o.natR acc.natCur) := rfl

theorem expandLine_clock_lt (P : Params) (o : Oracle) (partner : String)
    (pdata : Contact) (platform : String) (line : ConvoLine) (acc : BurstAcc) :
    acc.clock < (expandLine P o partner pdata platform line acc).clock := by
  rw [expandLine_clock]
  have h := pyRandint_ge 10 90 (o.natR acc.natCur)
  omega

theorem expandLine_queue (P : Params) (o : Oracle) (partner : String)
    (pdata : Contact) (platform : String) (line : ConvoLine) (acc : BurstAcc) :
    ∃ (d : MsgData) (fc : ℕ),
      (expandLine P o partner pdata platform line acc).queue =
        acc.queue ++ [(acc.clock + pyRandint 10 90 (o.natR acc.natCur), d)] ∧
      d.type = "msg" ∧
      d.body = (humanize o 1
        (lineContent line (acc.clock + pyRandint 10 90 (o.natR acc.natCur) + 7200))
        (acc.natCur + 1) fc).1 := by
  refine ⟨_, _, rfl, rfl, rfl⟩

theorem expandLines_cons (P : Params) (o : Oracle) (partner : String)
    (pdata : Contact) (platform : String) (l : ConvoLine) (ls : List ConvoLine)
    (acc : BurstAcc) :
    expandLines P o partner pdata platform (l :: ls) acc =
      expandLines P o partner pdata platform ls
        (expandLine P o partner pdata platform l acc) := rfl

theorem expandLines_clock_le (P : Params) (o : Oracle) (partner : String)
    (pdata : Contact) (platform : String) :
    ∀ (lines : List ConvoLine) (acc : BurstAcc),
      acc.clock ≤ (expandLines P o partner pdata platform lines acc).clock := by
  intro lines
  induction lines with
  | nil => intro acc; exact le_refl _
  | cons l ls ih =>
    intro acc
    rw [expandLines_cons]
    exact le_trans (le_of_lt (expandLine_clock_lt P o partner pdata platform l acc))
      (ih _)

/-- Every queue entry after expanding a conversation is either an original entry
or a line message strictly after the burst start, tagged "msg", whose body is a
humanized substituted line content. -/
theorem expandLines_queue_mem (P : Params) (o : Oracle) (partner : String)
    (pdata : Contact) (platform : String) :
    ∀ (lines : List ConvoLine) (acc : BurstAcc),
      ∀ p ∈ (expandLines P o partner pdata platform lines acc).queue,
        p ∈ acc.queue ∨
          (acc.clock < p.1 ∧ p.2.type = "msg" ∧
            ∃ l ∈ lines, ∃ (k nc fc : ℕ),
              p.2.body = (humanize o 1 (lineContent l k) nc fc).1) := by
  intro lines
  induction lines with
  | nil => intro acc p hp; exact Or.inl hp
  | cons l ls ih =>
    intro acc p hp
    rw [expandLines_cons] at hp
    rcases ih (expandLine P o partner pdata platform l acc) p hp with h | ⟨hck, hty, hbody⟩
    · rcases expandLine_queue P o partner pdata platform l acc with
        ⟨d, fc, hq, hdty, hdbody⟩
      rw [hq] at h
      rcases List.mem_append.mp h with h2 | h2
      · exact Or.inl h2
      · have hp2 : p = (acc.clock + pyRandint 10 90 (o.natR acc.natCur), d) := by
          simpa using h2
        subst hp2
        right
        refine ⟨?_, hdty, l, List.mem_cons_self _ _, _, _, _, hdbody⟩
        show acc.clock < acc.clock + pyRandint 10 90 (o.natR acc.natCur)
        have := pyRandint_ge 10 90 (o.natR acc.natCur)
        omega
    · right
      refine ⟨lt_of_le_of_lt
        (le_of_lt (expandLine_clock_lt P o partner pdata platform l acc)) hck, hty, ?_⟩
      rcases hbody with ⟨l2, hl2, hrest⟩
      exact ⟨l2, List.mem_cons_of_mem _ hl2, hrest⟩

theorem expandConvo_time (P : Params) (o : Oracle) (partner : String)
    (pdata : Contact) (platform : String) (lines : List ConvoLine) (s : RunState) :
    (expandConvo P o partner pdata platform lines s).time = s.time := rfl

theorem expandConvo_msgs (P : Params) (o : Oracle) (partner : String)
    (pdata : Contact) (platform : String) (lines : List ConvoLine) (s : RunState) :
    (expandConvo P o partner pdata platform lines s).msgs = s.msgs := rfl

theorem expandConvo_calls (P : Params) (o : Oracle) (partner : String)
    (pdata : Contact) (platform : String) (lines : List ConvoLine) (s : RunState) :
    (expandConvo P o partner pdata platform lines s).calls = s.calls := rfl

theorem expandConvo_geo (P : Params) (o : Oracle) (partner : String)
    (pdata : Contact) (platform : String) (lines : List ConvoLine) (s : RunState) :
    (expandConvo P o partner pdata platform lines s).geo = s.geo := rfl

theorem expandConvo_msgCount (P : Params) (o : Oracle) (partner : String)
    (pdata : Contact) (platform : String) (lines : List ConvoLine) (s : RunState) :
    (expandConvo P o partner pdata platform lines s).msgCount = s.msgCount := rfl

theorem expandConvo_queue_mem (P : Params) (o : Oracle) (partner : String)
    (pdata : Contact) (platform : String) (lines : List ConvoLine) (s : RunState) :
    ∀ p ∈ (expandConvo P o partner pdata platform lines s).queue,
      p ∈ s.queue ∨
        (s.time < p.1 ∧ p.2.type = "msg" ∧
          ∃ l ∈ lines, ∃ (k nc fc : ℕ),
            p.2.body = (humanize o 1 (lineContent l k) nc fc).1) := by
  intro p hp
  exact expandLines_queue_mem P o partner pdata platform lines _ p hp

theorem scheduleCall_spec (P : Params) (o : Oracle) (partner : String)
    (pdata : Contact) (s : RunState) :
    ∃ c0 : Call,
      (scheduleCall P o partner pdata s).calls = s.calls ++ [c0] ∧
      c0.timestamp = s.time ∧
      (scheduleCall P o partner pdata s).time = s.time ∧
      (scheduleCall P o partner pdata s).msgs = s.msgs ∧
      (scheduleCall P o partner pdata s).geo = s.geo ∧
      (scheduleCall P o partner pdata s).msgCount = s.msgCount ∧
      ((c0.status = CallStatus.missed ∧ c0.direction = Direction.incoming ∧
          c0.duration = 0 ∧
          (scheduleCall P o partner pdata s).queue =
            s.queue ++ [(s.time + 300, followUpMsg P partner pdata)]) ∨
        (c0.status = CallStatus.connected ∧
          (scheduleCall P o partner pdata s).queue = s.queue)) := by
  simp only [scheduleCall]
  split
  · split
    · exact ⟨_, rfl, by trivial, by trivial, by trivial, by trivial, by trivial,
        Or.inl ⟨by trivial, by trivial, by trivial, by trivial⟩⟩
    · exact ⟨_, rfl, by trivial, by trivial, by trivial, by trivial, by trivial,
        Or.inr ⟨by trivial, by trivial⟩⟩
  · exact ⟨_, rfl, by trivial, by trivial, by trivial, by trivial, by trivial,
      Or.inr ⟨by trivial, by trivial⟩⟩

theorem processQueue_nil (P : Params) (o : Oracle) (s : RunState)
    (h : s.queue = []) : processQueue P o s = s := by
  simp [processQueue, h]

theorem processQueue_proj (P : Params) (o : Oracle) (s : RunState) (ts : ℕ)
    (d : MsgData) (rest : List (ℕ × MsgData)) (h : s.queue = (ts, d) :: rest) :
    (processQueue P o s).queue = rest ∧
    (processQueue P o s).time = s.time ∧
    (processQueue P o s).calls = s.calls ∧
    (∃ la lo : ℚ, (processQueue P o s).geo =
      s.geo ++ [{ timestamp := ts, latitude := la, longitude := lo }]) ∧
    (processQueue P o s).msgs =
      (if d.type = "msg" then s.msgs ++ [msgOfData d ts] else s.msgs) ∧
    (processQueue P o s).msgCount =
      (if d.type = "msg" then s.msgCount + 1 else s.msgCount) := by
  simp only [processQueue, h]
  exact ⟨by trivial, by trivial, by trivial, ⟨_, _, by trivial⟩, by trivial, by trivial⟩

theorem processQueue_time (P : Params) (o : Oracle) (s : RunState) :
    (processQueue P o s).time = s.time := by
  cases h : s.queue with
  | nil => rw [processQueue_nil P o s h]
  | cons p rest =>
    exact (processQueue_proj P o s p.1 p.2 rest (by rw [h])).2.1

theorem processQueue_calls (P : Params) (o : Oracle) (s : RunState) :
    (processQueue P o s).calls = s.calls := by
  cases h : s.queue with
  | nil => rw [processQueue_nil P o s h]
  | cons p rest =>
    exact (processQueue_proj P o s p.1 p.2 rest (by rw [h])).2.2.1

/-- Case analysis of the scheduling phase: skip (nonempty queue), gap-crossing
break, an IndexError from an empty choice pool, or an interaction branch on the
gap-advanced state whose conversation lines come from the catalog or its
default entry. -/
theorem schedulePhase_spec (P : Params) (o : Oracle) (s : RunState) :
    (s.queue ≠ [] ∧ schedulePhase P o s = Sum.inr s) ∨
    (schedulePhase P o s = Sum.inl (RunResult.done s.msgs s.calls s.geo s.browser)) ∨
    (schedulePhase P o s = Sum.inl RunResult.err) ∨
    (s.queue = [] ∧
      ∃ s4 : RunState,
        s4.queue = [] ∧ s4.msgs = s.msgs ∧ s4.calls = s.calls ∧ s4.geo = s.geo ∧
        s4.msgCount = s.msgCount ∧ s.time + 1800 ≤ s4.time ∧ s4.time < P.endDate ∧
        ∃ partner pdata,
          ((∃ platform lines,
            ((∃ t, P.scen.conversations.lookup t = some lines) ∨ lines = P.scen.dflt) ∧
            schedulePhase P o s =
              Sum.inr (expandConvo P o partner pdata platform lines s4)) ∨
          schedulePhase P o s = Sum.inr (scheduleCall P o partner pdata s4))) := by
  cases hq : s.queue with
  | cons p rest =>
    left
    constructor
    · simp [hq]
    · simp [schedulePhase, hq]
  | nil =>
    simp only [schedulePhase, hq]
    by_cases hend : P.endDate ≤ s.time + pyRandint 1800 10800 (o.natR s.natCur)
    · rw [if_pos hend]
      right; left; rfl
    · rw [if_neg hend]
      cases hpc : pyChoice (P.graph.map Prod.fst) (o.natR (s.natCur + 1)) with
      | none => right; right; left; rfl
      | some partner =>
        dsimp only
        cases hpl : P.graph.lookup partner with
        | none => right; right; left; rfl
        | some pdata =>
          dsimp only
          cases hpf : pyChoice pdata.platforms (o.natR (s.natCur + 2)) with
          | none => right; right; left; rfl
          | some platform =>
            dsimp only
            cases hpt : pyChoice pdata.topics (o.natR (s.natCur + 3)) with
            | none => right; right; left; rfl
            | some topic =>
              dsimp only
              right; right; right
              have hgap := pyRandint_ge 1800 10800 (o.natR s.natCur)
              have hlb : s.time + 1800 ≤ s.time + pyRandint 1800 10800 (o.natR s.natCur) := by
                omega
              have hub : s.time + pyRandint 1800 10800 (o.natR s.natCur) < P.endDate := by
                omega
              by_cases hph : platform = "Phone"
              · rw [if_pos hph]
                exact ⟨by simp [hq],
                  { time := s.time + pyRandint 1800 10800 (o.natR s.natCur),
                    queue := [], msgs := s.msgs, calls := s.calls, geo := s.geo,
                    browser := s.browser, msgCount := s.msgCount,
                    lastPos := s.lastPos, natCur := s.natCur + 4, uCur := s.uCur,
                    iter := s.iter },
                  rfl, rfl, rfl, rfl, rfl, hlb, hub, partner, pdata, Or.inr rfl⟩
              · rw [if_neg hph]
                refine ⟨by simp [hq],
                  { time := s.time + pyRandint 1800 10800 (o.natR s.natCur),
                    queue := [], msgs := s.msgs, calls := s.calls, geo := s.geo,
                    browser := s.browser, msgCount := s.msgCount,
                    lastPos := s.lastPos, natCur := s.natCur + 4, uCur := s.uCur,
                    iter := s.iter },
                  rfl, rfl, rfl, rfl, rfl, hlb, hub, partner, pdata,
                  Or.inl ⟨platform,
                    (P.scen.conversations.lookup topic).getD P.scen.dflt, ?_, rfl⟩⟩
                cases hlk : P.scen.conversations.lookup topic with
                | none => right; simp [hlk]
                | some ls => left; exact ⟨topic, by simp [hlk]⟩

/-! ### The loop invariant -/

/-- The invariant of the burst loop at every iteration boundary. -/
structure Inv (P : Params) (s : RunState) : Prop where
  start_time : P.startDate ≤ s.time
  msgs_geo : ∀ m ∈ s.msgs, ∃ g ∈ s.geo, g.timestamp = m.timestamp
  msgs_lb : ∀ m ∈ s.msgs, P.startDate ≤ m.timestamp
  geo_lb : ∀ g ∈ s.geo, P.startDate ≤ g.timestamp
  calls_lb : ∀ c ∈ s.calls, P.startDate ≤ c.timestamp
  calls_ub : ∀ c ∈ s.calls, c.timestamp < P.endDate
  calls_le_time : ∀ c ∈ s.calls, c.timestamp ≤ s.time
  calls_sorted : List.Pairwise (· < ·) (s.calls.map Call.timestamp)
  queue_lb : ∀ p ∈ s.queue, P.startDate ≤ p.1
  missed_ok : ∀ c ∈ s.calls, c.status = CallStatus.missed →
    c.direction = Direction.incoming ∧ c.duration = 0
  missed_follow : ∀ c ∈ s.calls, c.status = CallStatus.missed →
    ∃ m ∈ s.msgs, followShape m = true ∧ m.timestamp = c.timestamp + 300
  cnt : s.msgCount = s.msgs.length

/-- The conclusions carried by any loop outcome. -/
structure CoreOK (P : Params) (r : RunResult) : Prop where
  msgs_geo : ∀ m ∈ resMsgs r, ∃ g ∈ resGeo r, g.timestamp = m.timestamp
  msgs_lb : ∀ m ∈ resMsgs r, P.startDate ≤ m.timestamp
  geo_lb : ∀ g ∈ resGeo r, P.startDate ≤ g.timestamp
  calls_lb : ∀ c ∈ resCalls r, P.startDate ≤ c.timestamp
  calls_ub : ∀ c ∈ resCalls r, c.timestamp < P.endDate
  calls_sorted : List.Pairwise (· < ·) ((resCalls r).map Call.timestamp)
  missed_ok : ∀ c ∈ resCalls r, c.status = CallStatus.missed →
    c.direction = Direction.incoming ∧ c.duration = 0
  missed_follow : ∀ c ∈ resCalls r, c.status = CallStatus.missed →
    ∃ m ∈ resMsgs r, followShape m = true ∧ m.timestamp = c.timestamp + 300

theorem inv_coreOK_done (P : Params) (s : RunState) (b : List BrowserEntry)
    (h : Inv P s) : CoreOK P (RunResult.done s.msgs s.calls s.geo b) :=
  ⟨h.msgs_geo, h.msgs_lb, h.geo_lb, h.calls_lb, h.calls_ub, h.calls_sorted,
    h.missed_ok, h.missed_follow⟩

theorem inv_coreOK_cancelled (P : Params) (s : RunState) (b : List BrowserEntry)
    (h : Inv P s) : CoreOK P (RunResult.cancelled s.msgs s.calls s.geo b) :=
  ⟨h.msgs_geo, h.msgs_lb, h.geo_lb, h.calls_lb, h.calls_ub, h.calls_sorted,
    h.missed_ok, h.missed_follow⟩

theorem coreOK_err (P : Params) : CoreOK P RunResult.err := by
  constructor
  all_goals simp [resMsgs, resCalls, resGeo]

theorem inv_iter (P : Params) (s : RunState) (k : ℕ) (h : Inv P s) :
    Inv P { s with iter := k } :=
  ⟨h.start_time, h.msgs_geo, h.msgs_lb, h.geo_lb, h.calls_lb, h.calls_ub,
    h.calls_le_time, h.calls_sorted, h.queue_lb, h.missed_ok, h.missed_follow, h.cnt⟩

theorem inv_init (P : Params) : Inv P (initState P) := by
  constructor <;> simp [initState]

/-- processQueue preserves the invariant: the popped event gets its location
sample at the same timestamp, and only the message/geo collections and the
counter grow. -/
theorem processQueue_inv (P : Params) (o : Oracle) (s : RunState) (h : Inv P s) :
    Inv P (processQueue P o s) := by
  cases hq : s.queue with
  | nil => rw [processQueue_nil P o s hq]; exact h
  | cons p rest =>
    obtain ⟨ts, d⟩ := p
    obtain ⟨hq6, ht6, hc6, ⟨la, lo, hg6⟩, hm6, hcnt6⟩ :=
      processQueue_proj P o s ts d rest hq
    have hts : P.startDate ≤ ts :=
      h.queue_lb (ts, d) (by rw [hq]; exact List.mem_cons_self _ _)
    constructor
    · rw [ht6]; exact h.start_time
    · intro m hm
      rw [hm6] at hm
      rw [hg6]
      by_cases hd : d.type = "msg"
      · rw [if_pos hd] at hm
        rcases List.mem_append.mp hm with h1 | h1
        · rcases h.msgs_geo m h1 with ⟨g, hg, hgts⟩
          exact ⟨g, List.mem_append_left _ hg, hgts⟩
        · have hm2 : m = msgOfData d ts := by simpa using h1
          subst hm2
          exact ⟨{ timestamp := ts, latitude := la, longitude := lo },
            List.mem_append_right _ (by simp), rfl⟩
      · rw [if_neg hd] at hm
        rcases h.msgs_geo m hm with ⟨g, hg, hgts⟩
        exact ⟨g, List.mem_append_left _ hg, hgts⟩
    · intro m hm
      rw [hm6] at hm
      by_cases hd : d.type = "msg"
      · rw [if_pos hd] at hm
        rcases List.mem_append.mp hm with h1 | h1
        · exact h.msgs_lb m h1
        · have hm2 : m = msgOfData d ts := by simpa using h1
          subst hm2
          exact hts
      · rw [if_neg hd] at hm
        exact h.msgs_lb m hm
    · intro g hg
      rw [hg6] at hg
      rcases List.mem_append.mp hg with h1 | h1
      · exact h.geo_lb g h1
      · have hg2 : g = { timestamp := ts, latitude := la, longitude := lo } := by
          simpa using h1
        subst hg2
        exact hts
    · intro c hc; rw [hc6] at hc; exact h.calls_lb c hc
    · intro c hc; rw [hc6] at hc; exact h.calls_ub c hc
    · intro c hc; rw [hc6] at hc; rw [ht6]; exact h.calls_le_time c hc
    · rw [hc6]; exact h.calls_sorted
    · intro p hp
      rw [hq6] at hp
      exact h.queue_lb p (by rw [hq]; exact List.mem_cons_of_mem _ hp)
    · intro c hc; rw [hc6] at hc; exact h.missed_ok c hc
    · intro c hc hcm
      rw [hc6] at hc
      rcases h.missed_follow c hc hcm with ⟨m, hm, hsh, hmts⟩
      refine ⟨m, ?_, hsh, hmts⟩
      rw [hm6]
      by_cases hd : d.type = "msg"
      · rw [if_pos hd]; exact List.mem_append_left _ hm
      · rw [if_neg hd]; exact hm
    · rw [hcnt6, hm6]
      by_cases hd : d.type = "msg"
      · rw [if_pos hd, if_pos hd]
        simp [h.cnt]
      · rw [if_neg hd, if_neg hd]
        exact h.cnt

/-- The invariant after the call branch: the call is recorded inside the
iteration's time window, a missed call is incoming with zero duration, and its
follow-up text is drained from the queue in the same iteration. -/
theorem inv_call_branch (P : Params) (o : Oracle) (partner : String)
    (pdata : Contact) (s s4 : RunState) (h : Inv P s)
    (hs4q : s4.queue = []) (hs4m : s4.msgs = s.msgs) (hs4c : s4.calls = s.calls)
    (hs4g : s4.geo = s.geo) (hs4cnt : s4.msgCount = s.msgCount)
    (hlb : s.time + 1800 ≤ s4.time) (hub : s4.time < P.endDate) :
    Inv P (processQueue P o (scheduleCall P o partner pdata s4)) := by
  obtain ⟨c0, hcalls, hc0ts, htime, hmsgs, hgeo, hcnt, hbr⟩ :=
    scheduleCall_spec P o partner pdata s4
  have hstart4 : P.startDate ≤ s4.time := le_trans h.start_time (by omega)
  have hsorted : List.Pairwise (· < ·)
      (((scheduleCall P o partner pdata s4).calls).map Call.timestamp) := by
    rw [hcalls, hs4c, List.map_append]
    refine List.pairwise_append.mpr ⟨h.calls_sorted, ?_, ?_⟩
    · simp [hc0ts]
    · intro x hx y hy
      rcases List.mem_map.mp hx with ⟨c, hcmem, hcx⟩
      have h1 : x ≤ s.time := hcx ▸ h.calls_le_time c hcmem
      have h2 : y = s4.time := by
        simp [hc0ts] at hy
        omega
      omega
  have hcalls_lb : ∀ c ∈ (scheduleCall P o partner pdata s4).calls,
      P.startDate ≤ c.timestamp := by
    intro c hc
    rw [hcalls, hs4c] at hc
    rcases List.mem_append.mp hc with h1 | h1
    · exact h.calls_lb c h1
    · have : c = c0 := by simpa using h1
      subst this
      rw [hc0ts]; exact hstart4
  have hcalls_ub : ∀ c ∈ (scheduleCall P o partner pdata s4).calls,
      c.timestamp < P.endDate := by
    intro c hc
    rw [hcalls, hs4c] at hc
    rcases List.mem_append.mp hc with h1 | h1
    · exact h.calls_ub c h1
    · have : c = c0 := by simpa using h1
      subst this
      rw [hc0ts]; exact hub
  have hcalls_le : ∀ c ∈ (scheduleCall P o partner pdata s4).calls,
      c.timestamp ≤ s4.time := by
    intro c hc
    rw [hcalls, hs4c] at hc
    rcases List.mem_append.mp hc with h1 | h1
    · exact le_trans (h.calls_le_time c h1) (by omega)
    · have : c = c0 := by simpa using h1
      subst this
      rw [hc0ts]
  rcases hbr with ⟨hst, hdir, hdur, hqueue⟩ | ⟨hst, hqueue⟩
  · -- missed incoming call with queued follow-up
    rw [hs4q] at hqueue
    have hqueue2 : (scheduleCall P o partner pdata s4).queue =
        (s4.time + 300, followUpMsg P partner pdata) :: [] := by
      rw [hqueue]; rfl
    obtain ⟨hq6, ht6, hc6, ⟨la, lo, hg6⟩, hm6, hcnt6⟩ :=
      processQueue_proj P o _ (s4.time + 300) (followUpMsg P partner pdata) [] hqueue2
    have hm6b : (processQueue P o (scheduleCall P o partner pdata s4)).msgs =
        s.msgs ++ [msgOfData (followUpMsg P partner pdata) (s4.time + 300)] := by
      rw [hm6, hmsgs, hs4m]
      rfl
    have hcnt6b : (processQueue P o (scheduleCall P o partner pdata s4)).msgCount =
        s.msgCount + 1 := by
      rw [hcnt6, hcnt, hs4cnt]
      rfl
    have hshape : followShape
        (msgOfData (followUpMsg P partner pdata) (s4.time + 300)) = true := by
      rw [followShape_msgOfData _ _ rfl]
      exact qFollowShape_followUpMsg P partner pdata
    constructor
    · rw [ht6, htime]; exact hstart4
    · intro m hm
      rw [hm6b] at hm
      rw [hg6, hgeo, hs4g]
      rcases List.mem_append.mp hm with h1 | h1
      · rcases h.msgs_geo m h1 with ⟨g, hg, hgts⟩
        exact ⟨g, List.mem_append_left _ hg, hgts⟩
      · have hm2 : m = msgOfData (followUpMsg P partner pdata) (s4.time + 300) := by
          simpa using h1
        subst hm2
        exact ⟨{ timestamp := s4.time + 300, latitude := la, longitude := lo },
          List.mem_append_right _ (by simp), rfl⟩
    · intro m hm
      rw [hm6b] at hm
      rcases List.mem_append.mp hm with h1 | h1
      · exact h.msgs_lb m h1
      · have hm2 : m = msgOfData (followUpMsg P partner pdata) (s4.time + 300) := by
          simpa using h1
        subst hm2
        show P.startDate ≤ s4.time + 300
        omega
    · intro g hg
      rw [hg6, hgeo, hs4g] at hg
      rcases List.mem_append.mp hg with h1 | h1
      · exact h.geo_lb g h1
      · have hg2 : g = { timestamp := s4.time + 300, latitude := la, longitude := lo } := by
          simpa using h1
        subst hg2
        show P.startDate ≤ s4.time + 300
        omega
    · intro c hc; rw [hc6] at hc; exact hcalls_lb c hc
    · intro c hc; rw [hc6] at hc; exact hcalls_ub c hc
    · intro c hc
      rw [hc6] at hc
      rw [ht6, htime]
      exact hcalls_le c hc
    · rw [hc6]; exact hsorted
    · intro p hp
      rw [hq6] at hp
      simp at hp
    · intro c hc hcm
      rw [hc6, hcalls, hs4c] at hc
      rcases List.mem_append.mp hc with h1 | h1
      · exact h.missed_ok c h1 hcm
      · have hcc : c = c0 := by simpa using h1
        subst hcc
        exact ⟨hdir, hdur⟩
    · intro c hc hcm
      rw [hc6, hcalls, hs4c] at hc
      rcases List.mem_append.mp hc with h1 | h1
      · rcases h.missed_follow c h1 hcm with ⟨m, hm, hsh, hmts⟩
        exact ⟨m, by rw [hm6b]; exact List.mem_append_left _ hm, hsh, hmts⟩
      · have : c = c0 := by simpa using h1
        subst this
        refine ⟨msgOfData (followUpMsg P partner pdata) (s4.time + 300), ?_, hshape, ?_⟩
        · rw [hm6b]
          exact List.mem_append_right _ (by simp)
        · rw [hc0ts]
          rfl
    · rw [hcnt6b, hm6b]
      simp [h.cnt]
  · -- connected call, nothing queued
    have hq5 : (scheduleCall P o partner pdata s4).queue = [] := by
      rw [hqueue, hs4q]
    rw [processQueue_nil P o _ hq5]
    constructor
    · rw [htime]; exact hstart4
    · intro m hm
      rw [hmsgs, hs4m] at hm
      rw [hgeo, hs4g]
      exact h.msgs_geo m hm
    · intro m hm; rw [hmsgs, hs4m] at hm; exact h.msgs_lb m hm
    · intro g hg; rw [hgeo, hs4g] at hg; exact h.geo_lb g hg
    · exact hcalls_lb
    · exact hcalls_ub
    · intro c hc; rw [htime]; exact hcalls_le c hc
    · exact hsorted
    · intro p hp; rw [hq5] at hp; simp at hp
    · intro c hc hcm
      rw [hcalls, hs4c] at hc
      rcases List.mem_append.mp hc with h1 | h1
      · exact h.missed_ok c h1 hcm
      · have hcc : c = c0 := by simpa using h1
        subst hcc
        rw [hst] at hcm
        cases hcm
    · intro c hc hcm
      rw [hcalls, hs4c] at hc
      rcases List.mem_append.mp hc with h1 | h1
      · rcases h.missed_follow c h1 hcm with ⟨m, hm, hsh, hmts⟩
        exact ⟨m, by rw [hmsgs, hs4m]; exact hm, hsh, hmts⟩
      · have : c = c0 := by simpa using h1
        subst this
        rw [hst] at hcm
        cases hcm
    · rw [hcnt, hmsgs, hs4m, hs4cnt]
      exact h.cnt

/-- The invariant after the message branch: the burst only fills the queue with
line messages timed after the advanced clock. -/
theorem inv_convo_branch (P : Params) (o : Oracle) (partner : String)
    (pdata : Contact) (platform : String) (lines : List ConvoLine)
    (s s4 : RunState) (h : Inv P s)
    (hs4q : s4.queue = []) (hs4m : s4.msgs = s.msgs) (hs4c : s4.calls = s.calls)
    (hs4g : s4.geo = s.geo) (hs4cnt : s4.msgCount = s.msgCount)
    (hlb : s.time + 1800 ≤ s4.time) (hub : s4.time < P.endDate) :
    Inv P (processQueue P o (expandConvo P o partner pdata platform lines s4)) := by
  have hstart4 : P.startDate ≤ s4.time := le_trans h.start_time (by omega)
  refine processQueue_inv P o _ ?_
  constructor
  · rw [expandConvo_time]; exact hstart4
  · intro m hm
    rw [expandConvo_msgs, hs4m] at hm
    rw [expandConvo_geo, hs4g]
    exact h.msgs_geo m hm
  · intro m hm; rw [expandConvo_msgs, hs4m] at hm; exact h.msgs_lb m hm
  · intro g hg; rw [expandConvo_geo, hs4g] at hg; exact h.geo_lb g hg
  · intro c hc
    rw [expandConvo_calls, hs4c] at hc
    exact h.calls_lb c hc
  · intro c hc
    rw [expandConvo_calls, hs4c] at hc
    exact h.calls_ub c hc
  · intro c hc
    rw [expandConvo_calls, hs4c] at hc
    rw [expandConvo_time]
    exact le_trans (h.calls_le_time c hc) (by omega)
  · rw [expandConvo_calls, hs4c]; exact h.calls_sorted
  · intro p hp
    rcases expandConvo_queue_mem P o partner pdata platform lines s4 p hp with
      h1 | ⟨h1, _, _⟩
    · rw [hs4q] at h1; simp at h1
    · omega
  · intro c hc
    rw [expandConvo_calls, hs4c] at hc
    exact h.missed_ok c hc
  · intro c hc hcm
    rw [expandConvo_calls, hs4c] at hc
    rcases h.missed_follow c hc hcm with ⟨m, hm, hsh, hmts⟩
    exact ⟨m, by rw [expandConvo_msgs, hs4m]; exact hm, hsh, hmts⟩
  · rw [expandConvo_msgCount, expandConvo_msgs, hs4m, hs4cnt]
    exact h.cnt

theorem stepTail_inv (P : Params) (o : Oracle) (s5 : RunState)
    (h : Inv P (processQueue P o s5)) :
    (∀ s2, stepTail P o s5 = Sum.inr s2 → Inv P s2) ∧
    (∀ r, stepTail P o s5 = Sum.inl r → CoreOK P r) := by
  constructor
  · intro s2 h2
    simp only [stepTail] at h2
    split at h2
    · cases h2
    · cases h2
      exact inv_iter P _ _ h
  · intro r hr
    simp only [stepTail] at hr
    split at hr
    · cases hr
      exact inv_coreOK_done P _ _ h
    · cases hr

/-- One loop iteration preserves the invariant, and any outcome it returns
satisfies the outcome conclusions. -/
theorem stepRun_master (P : Params) (o : Oracle) (s : RunState) (h : Inv P s) :
    (∀ s2, stepRun P o s = Sum.inr s2 → Inv P s2) ∧
    (∀ r, stepRun P o s = Sum.inl r → CoreOK P r) := by
  by_cases hend : P.endDate ≤ s.time
  · constructor
    · intro s2 hs2
      rw [stepRun, if_pos hend] at hs2
      cases hs2
    · intro r hr
      rw [stepRun, if_pos hend] at hr
      cases hr
      exact inv_coreOK_done P s s.browser h
  · by_cases hcan : isCancelled o s.iter = true
    · constructor
      · intro s2 hs2
        rw [stepRun, if_neg hend, if_pos hcan] at hs2
        cases hs2
      · intro r hr
        rw [stepRun, if_neg hend, if_pos hcan] at hr
        cases hr
        exact inv_coreOK_cancelled P s s.browser h
    · have hcanf : isCancelled o s.iter = false := by
        cases hx : isCancelled o s.iter
        · rfl
        · exact absurd hx hcan
      have hstep : stepRun P o s = (match schedulePhase P o s with
          | Sum.inl r => Sum.inl r
          | Sum.inr s5 => stepTail P o s5) := by
        rw [stepRun, if_neg hend, if_neg (by rw [hcanf]; simp)]
      rcases schedulePhase_spec P o s with ⟨_, hsp⟩ | hsp | hsp |
        ⟨_, s4, hs4q, hs4m, hs4c, hs4g, hs4cnt, hlb, hub, partner, pdata, hbr⟩
      · -- nonempty queue: pop only
        rw [hsp] at hstep
        have h6 : Inv P (processQueue P o s) := processQueue_inv P o s h
        have ht := stepTail_inv P o s h6
        exact ⟨fun s2 h2 => ht.1 s2 (by rw [hstep] at h2; exact h2),
          fun r hr => ht.2 r (by rw [hstep] at hr; exact hr)⟩
      · -- gap crossed endDate
        rw [hsp] at hstep
        constructor
        · intro s2 h2; rw [hstep] at h2; cases h2
        · intro r hr
          rw [hstep] at hr
          cases hr
          exact inv_coreOK_done P s s.browser h
      · -- IndexError
        rw [hsp] at hstep
        constructor
        · intro s2 h2; rw [hstep] at h2; cases h2
        · intro r hr
          rw [hstep] at hr
          cases hr
          exact coreOK_err P
      · have hlb2 : s.time + 1800 ≤ s4.time := hlb
        rcases hbr with ⟨platform, lines, _, hsp⟩ | hsp
        · -- conversation burst
          rw [hsp] at hstep
          have h6 := inv_convo_branch P o partner pdata platform lines s s4 h
            hs4q hs4m hs4c hs4g hs4cnt hlb2 hub
          have ht := stepTail_inv P o _ h6
          exact ⟨fun s2 h2 => ht.1 s2 (by rw [hstep] at h2; exact h2),
            fun r hr => ht.2 r (by rw [hstep] at hr; exact hr)⟩
        · -- phone call
          rw [hsp] at hstep
          have h6 := inv_call_branch P o partner pdata s s4 h
            hs4q hs4m hs4c hs4g hs4cnt hlb2 hub
          have ht := stepTail_inv P o _ h6
          exact ⟨fun s2 h2 => ht.1 s2 (by rw [hstep] at h2; exact h2),
            fun r hr => ht.2 r (by rw [hstep] at hr; exact hr)⟩

/-- Any outcome the fueled loop produces from an invariant state satisfies the
outcome conclusions. -/
theorem runFuel_coreOK (P : Params) (o : Oracle) :
    ∀ (n : ℕ) (s : RunState) (r : RunResult), Inv P s →
      runLoopFuel P o n s = some r → CoreOK P r := by
  intro n
  induction n with
  | zero => intro s r _ hr; cases hr
  | succ n ih =>
    intro s r hs hr
    rw [runLoopFuel] at hr
    cases hstep : stepRun P o s with
    | inl r2 =>
      rw [hstep] at hr
      have : r2 = r := by simpa using hr
      subst this
      exact (stepRun_master P o s hs).2 _ hstep
    | inr s2 =>
      rw [hstep] at hr
      exact ih s2 r ((stepRun_master P o s hs).1 _ hstep) hr

/-! ### Follow-up bookkeeping under a well-behaved scenario catalog -/

/-- Secondary invariant, maintained under `GoodScen`: the follow-up-shaped
messages correspond one-to-one, in order, to the missed calls (each timed 300 s
after its call), and no queued payload has the follow-up shape. -/
structure InvF (P : Params) (s : RunState) : Prop where
  follow_eq : (s.msgs.filter followShape).map Message.timestamp =
    ((s.calls.filter fun c => decide (c.status = CallStatus.missed)).map
      fun c => c.timestamp + 300)
  queue_noshape : ∀ p ∈ s.queue, qFollowShape p.2 = false

/-- The same correspondence on an outcome. -/
def FollowOK (r : RunResult) : Prop :=
  ((resMsgs r).filter followShape).map Message.timestamp =
    (((resCalls r).filter fun c => decide (c.status = CallStatus.missed)).map
      fun c => c.timestamp + 300)

theorem invF_init (P : Params) : InvF P (initState P) := by
  constructor <;> simp [initState]

theorem qFollowShape_of_body_ne (d : MsgData) (h : d.body ≠ followBody) :
    qFollowShape d = false := by
  have hb : (d.body == followBody) = false := by
    simp [h]
  simp [qFollowShape, hb]

theorem mem_of_lookup {β : Type} (k : String) (v : β) :
    ∀ l : List (String × β), l.lookup k = some v → (k, v) ∈ l := by
  intro l
  induction l with
  | nil => intro h; cases h
  | cons p rest ih =>
    intro h
    obtain ⟨pk, pv⟩ := p
    by_cases hk : (k == pk) = true
    · simp only [List.lookup, hk] at h
      have hv : pv = v := by simpa using h
      have hkk : k = pk := by simpa using hk
      subst hv; subst hkk
      exact List.mem_cons_self _ _
    · have hkf : (k == pk) = false := by simpa using hk
      simp only [List.lookup, hkf] at h
      exact List.mem_cons_of_mem _ (ih h)

theorem msgOfData_timestamp (d : MsgData) (ts : ℕ) :
    (msgOfData d ts).timestamp = ts := rfl

theorem processQueue_invF (P : Params) (o : Oracle) (s : RunState)
    (hf : InvF P s) : InvF P (processQueue P o s) := by
  cases hq : s.queue with
  | nil => rw [processQueue_nil P o s hq]; exact hf
  | cons p rest =>
    obtain ⟨ts, d⟩ := p
    obtain ⟨hq6, ht6, hc6, ⟨la, lo, hg6⟩, hm6, hcnt6⟩ :=
      processQueue_proj P o s ts d rest hq
    have hnd : qFollowShape d = false :=
      hf.queue_noshape (ts, d) (by rw [hq]; exact List.mem_cons_self _ _)
    constructor
    · rw [hm6, hc6]
      by_cases hdt : d.type = "msg"
      · rw [if_pos hdt, List.filter_append]
        have hsing : List.filter followShape [msgOfData d ts] = [] := by
          simp [List.filter, followShape_msgOfData d ts hdt, hnd]
        rw [hsing, List.append_nil]
        exact hf.follow_eq
      · rw [if_neg hdt]
        exact hf.follow_eq
    · intro p hp
      rw [hq6] at hp
      exact hf.queue_noshape p (by rw [hq]; exact List.mem_cons_of_mem _ hp)

theorem invF_call_branch (P : Params) (o : Oracle) (partner : String)
    (pdata : Contact) (s s4 : RunState) (hf : InvF P s)
    (hs4q : s4.queue = []) (hs4m : s4.msgs = s.msgs) (hs4c : s4.calls = s.calls) :
    InvF P (processQueue P o (scheduleCall P o partner pdata s4)) := by
  obtain ⟨c0, hcalls, hc0ts, htime, hmsgs, hgeo, hcnt, hbr⟩ :=
    scheduleCall_spec P o partner pdata s4
  rcases hbr with ⟨hst, hdir, hdur, hqueue⟩ | ⟨hst, hqueue⟩
  · rw [hs4q] at hqueue
    have hqueue2 : (scheduleCall P o partner pdata s4).queue =
        (s4.time + 300, followUpMsg P partner pdata) :: [] := by
      rw [hqueue]; rfl
    obtain ⟨hq6, ht6, hc6, ⟨la, lo, hg6⟩, hm6, hcnt6⟩ :=
      processQueue_proj P o _ (s4.time + 300) (followUpMsg P partner pdata) [] hqueue2
    have hm6b : (processQueue P o (scheduleCall P o partner pdata s4)).msgs =
        s.msgs ++ [msgOfData (followUpMsg P partner pdata) (s4.time + 300)] := by
      rw [hm6, hmsgs, hs4m]
      rfl
    have hshape : followShape
        (msgOfData (followUpMsg P partner pdata) (s4.time + 300)) = true := by
      rw [followShape_msgOfData _ _ rfl]
      exact qFollowShape_followUpMsg P partner pdata
    constructor
    · rw [hm6b, hc6, hcalls, hs4c, List.filter_append, List.filter_append,
        List.map_append, List.map_append, hf.follow_eq]
      congr 1
      simp [List.filter, hshape, hst, hc0ts, msgOfData_timestamp]
    · intro p hp
      rw [hq6] at hp
      simp at hp
  · have hq5 : (scheduleCall P o partner pdata s4).queue = [] := by
      rw [hqueue, hs4q]
    rw [processQueue_nil P o _ hq5]
    constructor
    · rw [hmsgs, hs4m, hcalls, hs4c, List.filter_append]
      have hc0f : List.filter (fun c => decide (c.status = CallStatus.missed)) [c0]
          = [] := by
        simp [List.filter, hst]
      rw [hc0f, List.append_nil]
      exact hf.follow_eq
    · intro p hp
      rw [hq5] at hp
      simp at hp

theorem invF_convo_branch (P : Params) (o : Oracle) (partner : String)
    (pdata : Contact) (platform : String) (lines : List ConvoLine)
    (s s4 : RunState) (hlines : ∀ l ∈ lines, l.content ≠ followBody)
    (hf : InvF P s) (hs4q : s4.queue = []) (hs4m : s4.msgs = s.msgs)
    (hs4c : s4.calls = s.calls) :
    InvF P (processQueue P o (expandConvo P o partner pdata platform lines s4)) := by
  refine processQueue_invF P o _ ?_
  constructor
  · rw [expandConvo_msgs, expandConvo_calls, hs4m, hs4c]
    exact hf.follow_eq
  · intro p hp
    rcases expandConvo_queue_mem P o partner pdata platform lines s4 p hp with
      h1 | ⟨_, _, l, hl, k, nc, fc, hbody⟩
    · rw [hs4q] at h1; simp at h1
    · apply qFollowShape_of_body_ne
      rw [hbody]
      exact humanized_line_ne o l k nc fc (hlines l hl)

theorem invF_iter (P : Params) (s : RunState) (k : ℕ) (h : InvF P s) :
    InvF P { s with iter := k } :=
  ⟨h.follow_eq, h.queue_noshape⟩

theorem stepTail_invF (P : Params) (o : Oracle) (s5 : RunState)
    (h : InvF P (processQueue P o s5)) :
    (∀ s2, stepTail P o s5 = Sum.inr s2 → InvF P s2) ∧
    (∀ r, stepTail P o s5 = Sum.inl r → FollowOK r) := by
  constructor
  · intro s2 h2
    simp only [stepTail] at h2
    split at h2
    · cases h2
    · cases h2
      exact invF_iter P _ _ h
  · intro r hr
    simp only [stepTail] at hr
    split at hr
    · cases hr
      exact h.follow_eq
    · cases hr

/-- One loop iteration preserves the follow-up correspondence, under the
scenario-catalog side condition. -/
theorem stepRun_masterF (P : Params) (o : Oracle) (s : RunState)
    (hg : GoodScen P) (hf : InvF P s) :
    (∀ s2, stepRun P o s = Sum.inr s2 → InvF P s2) ∧
    (∀ r, stepRun P o s = Sum.inl r → FollowOK r) := by
  by_cases hend : P.endDate ≤ s.time
  · constructor
    · intro s2 hs2
      rw [stepRun, if_pos hend] at hs2
      cases hs2
    · intro r hr
      rw [stepRun, if_pos hend] at hr
      cases hr
      exact hf.follow_eq
  · by_cases hcan : isCancelled o s.iter = true
    · constructor
      · intro s2 hs2
        rw [stepRun, if_neg hend, if_pos hcan] at hs2
        cases hs2
      · intro r hr
        rw [stepRun, if_neg hend, if_pos hcan] at hr
        cases hr
        exact hf.follow_eq
    · have hcanf : isCancelled o s.iter = false := by
        cases hx : isCancelled o s.iter
        · rfl
        · exact absurd hx hcan
      have hstep : stepRun P o s = (match schedulePhase P o s with
          | Sum.inl r => Sum.inl r
          | Sum.inr s5 => stepTail P o s5) := by
        rw [stepRun, if_neg hend, if_neg (by rw [hcanf]; simp)]
      rcases schedulePhase_spec P o s with ⟨_, hsp⟩ | hsp | hsp |
        ⟨_, s4, hs4q, hs4m, hs4c, hs4g, hs4cnt, hlb, hub, partner, pdata, hbr⟩
      · rw [hsp] at hstep
        have h6 : InvF P (processQueue P o s) := processQueue_invF P o s hf
        have ht := stepTail_invF P o s h6
        exact ⟨fun s2 h2 => ht.1 s2 (by rw [hstep] at h2; exact h2),
          fun r hr => ht.2 r (by rw [hstep] at hr; exact hr)⟩
      · rw [hsp] at hstep
        constructor
        · intro s2 h2; rw [hstep] at h2; cases h2
        · intro r hr
          rw [hstep] at hr
          cases hr
          exact hf.follow_eq
      · rw [hsp] at hstep
        constructor
        · intro s2 h2; rw [hstep] at h2; cases h2
        · intro r hr
          rw [hstep] at hr
          cases hr
          exact rfl
      · rcases hbr with ⟨platform, lines, hlk, hsp⟩ | hsp
        · rw [hsp] at hstep
          have hlines : ∀ l ∈ lines, l.content ≠ followBody := by
            rcases hlk with ⟨t, hlt⟩ | hdf
            · exact hg.1 (t, lines) (mem_of_lookup t lines _ hlt)
            · rw [hdf]; exact hg.2
          have h6 := invF_convo_branch P o partner pdata platform lines s s4
            hlines hf hs4q hs4m hs4c
          have ht := stepTail_invF P o _ h6
          exact ⟨fun s2 h2 => ht.1 s2 (by rw [hstep] at h2; exact h2),
            fun r hr => ht.2 r (by rw [hstep] at hr; exact hr)⟩
        · rw [hsp] at hstep
          have h6 := invF_call_branch P o partner pdata s s4 hf hs4q hs4m hs4c
          have ht := stepTail_invF P o _ h6
          exact ⟨fun s2 h2 => ht.1 s2 (by rw [hstep] at h2; exact h2),
            fun r hr => ht.2 r (by rw [hstep] at hr; exact hr)⟩

/-- Under the scenario side condition, any loop outcome carries the
follow-up/missed-call correspondence. -/
theorem runFuel_followOK (P : Params) (o : Oracle) (hg : GoodScen P) :
    ∀ (n : ℕ) (s : RunState) (r : RunResult), InvF P s →
      runLoopFuel P o n s = some r → FollowOK r := by
  intro n
  induction n with
  | zero => intro s r _ hr; cases hr
  | succ n ih =>
    intro s r hs hr
    rw [runLoopFuel] at hr
    cases hstep : stepRun P o s with
    | inl r2 =>
      rw [hstep] at hr
      have : r2 = r := by simpa using hr
      subst this
      exact (stepRun_masterF P o s hg hs).2 _ hstep
    | inr s2 =>
      rw [hstep] at hr
      exact ih s2 r ((stepRun_masterF P o s hg hs).1 _ hstep) hr

/-! ### The message quota -/

theorem processQueue_cnt (P : Params) (o : Oracle) (s : RunState)
    (h : s.msgCount = s.msgs.length) :
    (processQueue P o s).msgCount = (processQueue P o s).msgs.length ∧
    (processQueue P o s).msgCount ≤ s.msgCount + 1 := by
  cases hq : s.queue with
  | nil =>
    rw [processQueue_nil P o s hq]
    exact ⟨h, by omega⟩
  | cons p rest =>
    obtain ⟨ts, d⟩ := p
    obtain ⟨hq6, ht6, hc6, ⟨la, lo, hg6⟩, hm6, hcnt6⟩ :=
      processQueue_proj P o s ts d rest hq
    rw [hm6, hcnt6]
    by_cases hdt : d.type = "msg"
    · rw [if_pos hdt, if_pos hdt]
      constructor
      · simp [h]
      · omega
    · rw [if_neg hdt, if_neg hdt]
      exact ⟨h, by omega⟩

theorem stepTail_cnt (P : Params) (o : Oracle) (s5 : RunState)
    (hsync : s5.msgCount = s5.msgs.length) (hlt : s5.msgCount < P.numMessages) :
    (∀ s2, stepTail P o s5 = Sum.inr s2 →
      s2.msgCount = s2.msgs.length ∧ s2.msgCount < P.numMessages) ∧
    (∀ r, stepTail P o s5 = Sum.inl r → (resMsgs r).length ≤ P.numMessages) := by
  obtain ⟨h6a, h6b⟩ := processQueue_cnt P o s5 hsync
  constructor
  · intro s2 h2
    simp only [stepTail] at h2
    split at h2
    · cases h2
    · cases h2
      rename_i hguard
      refine ⟨h6a, ?_⟩
      show (processQueue P o s5).msgCount < P.numMessages
      omega
  · intro r hr
    simp only [stepTail] at hr
    split at hr
    · cases hr
      show (processQueue P o s5).msgs.length ≤ P.numMessages
      omega
    · cases hr

/-- One loop iteration keeps the message counter synchronized with the number
of emitted messages and never lets it pass the target. -/
theorem stepRun_cnt (P : Params) (o : Oracle) (s : RunState)
    (hsync : s.msgCount = s.msgs.length) (hlt : s.msgCount < P.numMessages) :
    (∀ s2, stepRun P o s = Sum.inr s2 →
      s2.msgCount = s2.msgs.length ∧ s2.msgCount < P.numMessages) ∧
    (∀ r, stepRun P o s = Sum.inl r → (resMsgs r).length ≤ P.numMessages) := by
  by_cases hend : P.endDate ≤ s.time
  · constructor
    · intro s2 hs2
      rw [stepRun, if_pos hend] at hs2
      cases hs2
    · intro r hr
      rw [stepRun, if_pos hend] at hr
      cases hr
      show s.msgs.length ≤ P.numMessages
      omega
  · by_cases hcan : isCancelled o s.iter = true
    · constructor
      · intro s2 hs2
        rw [stepRun, if_neg hend, if_pos hcan] at hs2
        cases hs2
      · intro r hr
        rw [stepRun, if_neg hend, if_pos hcan] at hr
        cases hr
        show s.msgs.length ≤ P.numMessages
        omega
    · have hcanf : isCancelled o s.iter = false := by
        cases hx : isCancelled o s.iter
        · rfl
        · exact absurd hx hcan
      have hstep : stepRun P o s = (match schedulePhase P o s with
          | Sum.inl r => Sum.inl r
          | Sum.inr s5 => stepTail P o s5) := by
        rw [stepRun, if_neg hend, if_neg (by rw [hcanf]; simp)]
      rcases schedulePhase_spec P o s with ⟨_, hsp⟩ | hsp | hsp |
        ⟨_, s4, hs4q, hs4m, hs4c, hs4g, hs4cnt, hlb, hub, partner, pdata, hbr⟩
      · rw [hsp] at hstep
        have ht := stepTail_cnt P o s hsync hlt
        exact ⟨fun s2 h2 => ht.1 s2 (by rw [hstep] at h2; exact h2),
          fun r hr => ht.2 r (by rw [hstep] at hr; exact hr)⟩
      · rw [hsp] at hstep
        constructor
        · intro s2 h2; rw [hstep] at h2; cases h2
        · intro r hr
          rw [hstep] at hr
          cases hr
          show s.msgs.length ≤ P.numMessages
          omega
      · rw [hsp] at hstep
        constructor
        · intro s2 h2; rw [hstep] at h2; cases h2
        · intro r hr
          rw [hstep] at hr
          cases hr
          show (List.nil : List Message).length ≤ P.numMessages
          simp
      · rcases hbr with ⟨platform, lines, _, hsp⟩ | hsp
        · rw [hsp] at hstep
          have hs5sync : (expandConvo P o partner pdata platform lines s4).msgCount =
              (expandConvo P o partner pdata platform lines s4).msgs.length := by
            rw [expandConvo_msgCount, expandConvo_msgs, hs4m, hs4cnt]
            exact hsync
          have hs5lt : (expandConvo P o partner pdata platform lines s4).msgCount <
              P.numMessages := by
            rw [expandConvo_msgCount, hs4cnt]
            exact hlt
          have ht := stepTail_cnt P o _ hs5sync hs5lt
          exact ⟨fun s2 h2 => ht.1 s2 (by rw [hstep] at h2; exact h2),
            fun r hr => ht.2 r (by rw [hstep] at hr; exact hr)⟩
        · rw [hsp] at hstep
          obtain ⟨c0, hcalls, hc0ts, htime, hmsgs, hgeo, hcnt, hbr2⟩ :=
            scheduleCall_spec P o partner pdata s4
          have hs5sync : (scheduleCall P o partner pdata s4).msgCount =
              (scheduleCall P o partner pdata s4).msgs.length := by
            rw [hcnt, hmsgs, hs4m, hs4cnt]
            exact hsync
          have hs5lt : (scheduleCall P o partner pdata s4).msgCount <
              P.numMessages := by
            rw [hcnt, hs4cnt]
            exact hlt
          have ht := stepTail_cnt P o _ hs5sync hs5lt
          exact ⟨fun s2 h2 => ht.1 s2 (by rw [hstep] at h2; exact h2),
            fun r hr => ht.2 r (by rw [hstep] at hr; exact hr)⟩

theorem runFuel_cnt (P : Params) (o : Oracle) :
    ∀ (n : ℕ) (s : RunState) (r : RunResult),
      s.msgCount = s.msgs.length → s.msgCount < P.numMessages →
      runLoopFuel P o n s = some r → (resMsgs r).length ≤ P.numMessages := by
  intro n
  induction n with
  | zero => intro s r _ _ hr; cases hr
  | succ n ih =>
    intro s r hsync hlt hr
    rw [runLoopFuel] at hr
    cases hstep : stepRun P o s with
    | inl r2 =>
      rw [hstep] at hr
      have : r2 = r := by simpa using hr
      subst this
      exact (stepRun_cnt P o s hsync hlt).2 _ hstep
    | inr s2 =>
      rw [hstep] at hr
      obtain ⟨h1, h2⟩ := (stepRun_cnt P o s hsync hlt).1 _ hstep
      exact ih s2 r h1 h2 hr

/-! ### Termination of the while loop -/

theorem scheduleCall_time (P : Params) (o : Oracle) (partner : String)
    (pdata : Contact) (s : RunState) :
    (scheduleCall P o partner pdata s).time = s.time := by
  obtain ⟨c0, hcalls, hc0ts, htime, hmsgs, hgeo, hcnt, hbr⟩ :=
    scheduleCall_spec P o partner pdata s
  exact htime

theorem processQueue_queue_len (P : Params) (o : Oracle) (s : RunState)
    (hq : s.queue ≠ []) :
    (processQueue P o s).queue.length < s.queue.length := by
  cases hqe : s.queue with
  | nil => exact absurd hqe hq
  | cons p rest =>
    obtain ⟨ts, d⟩ := p
    rw [(processQueue_proj P o s ts d rest hqe).1]
    simp

/-- Every continuing iteration either strictly advances the clock towards
end_time (a scheduling iteration: the gap is at least 1800 s) or strictly
shrinks the burst queue (a draining iteration). -/
theorem stepRun_dec (P : Params) (o : Oracle) (s s2 : RunState)
    (h : stepRun P o s = Sum.inr s2) :
    P.endDate - s2.time < P.endDate - s.time ∨
      (s2.time = s.time ∧ s2.queue.length < s.queue.length) := by
  by_cases hend : P.endDate ≤ s.time
  · rw [stepRun, if_pos hend] at h
    cases h
  · by_cases hcan : isCancelled o s.iter = true
    · rw [stepRun, if_neg hend, if_pos hcan] at h
      cases h
    · have hcanf : isCancelled o s.iter = false := by
        cases hx : isCancelled o s.iter
        · rfl
        · exact absurd hx hcan
      rw [stepRun, if_neg hend, if_neg (by rw [hcanf]; simp)] at h
      rcases schedulePhase_spec P o s with ⟨hqne, hsp⟩ | hsp | hsp |
        ⟨_, s4, hs4q, hs4m, hs4c, hs4g, hs4cnt, hlb, hub, partner, pdata, hbr⟩
      · rw [hsp] at h
        simp only [stepTail] at h
        split at h
        · cases h
        · cases h
          right
          constructor
          · show (processQueue P o s).time = s.time
            exact processQueue_time P o s
          · show (processQueue P o s).queue.length < s.queue.length
            exact processQueue_queue_len P o s hqne
      · rw [hsp] at h; cases h
      · rw [hsp] at h; cases h
      · rcases hbr with ⟨platform, lines, _, hsp⟩ | hsp
        · rw [hsp] at h
          simp only [stepTail] at h
          split at h
          · cases h
          · cases h
            left
            have ht : (processQueue P o
                (expandConvo P o partner pdata platform lines s4)).time = s4.time := by
              rw [processQueue_time, expandConvo_time]
            show P.endDate -
              (processQueue P o (expandConvo P o partner pdata platform lines s4)).time <
                P.endDate - s.time
            omega
        · rw [hsp] at h
          simp only [stepTail] at h
          split at h
          · cases h
          · cases h
            left
            have ht : (processQueue P o (scheduleCall P o partner pdata s4)).time =
                s4.time := by
              rw [processQueue_time, scheduleCall_time]
            show P.endDate -
              (processQueue P o (scheduleCall P o partner pdata s4)).time <
                P.endDate - s.time
            omega

theorem runLoop_term_aux (P : Params) (o : Oracle) :
    ∀ a q : ℕ, ∀ s : RunState, P.endDate - s.time ≤ a → s.queue.length ≤ q →
      ∃ n, (runLoopFuel P o n s).isSome := by
  intro a
  induction a with
  | zero =>
    intro q s h1 _
    have hend : P.endDate ≤ s.time := by omega
    exact ⟨1, by rw [runLoopFuel, stepRun, if_pos hend]; rfl⟩
  | succ a iha =>
    intro q
    induction q with
    | zero =>
      intro s h1 h2
      cases hstep : stepRun P o s with
      | inl r => exact ⟨1, by rw [runLoopFuel, hstep]; rfl⟩
      | inr s2 =>
        rcases stepRun_dec P o s s2 hstep with hlt | ⟨_, hqlt⟩
        · rcases iha s2.queue.length s2 (by omega) (le_refl _) with ⟨n, hn⟩
          exact ⟨n + 1, by rw [runLoopFuel, hstep]; exact hn⟩
        · omega
    | succ q ihq =>
      intro s h1 h2
      cases hstep : stepRun P o s with
      | inl r => exact ⟨1, by rw [runLoopFuel, hstep]; rfl⟩
      | inr s2 =>
        rcases stepRun_dec P o s s2 hstep with hlt | ⟨hteq, hqlt⟩
        · rcases iha s2.queue.length s2 (by omega) (le_refl _) with ⟨n, hn⟩
          exact ⟨n + 1, by rw [runLoopFuel, hstep]; exact hn⟩
        · rcases ihq s2 (by omega) (by omega) with ⟨n, hn⟩
          exact ⟨n + 1, by rw [runLoopFuel, hstep]; exact hn⟩

/-- The burst loop terminates from every state: some fuel suffices. -/
theorem runLoop_term (P : Params) (o : Oracle) (s : RunState) :
    ∃ n, (runLoopFuel P o n s).isSome :=
  runLoop_term_aux P o (P.endDate - s.time) s.queue.length s (le_refl _) (le_refl _)

/-! ### Lemmas about the social-graph builder -/

theorem pySample_length {α : Type} (r : ℕ → ℕ) :
    ∀ (k cur : ℕ) (pool : List α), (pySample r cur pool k).1.length ≤ k := by
  intro k
  induction k with
  | zero => intro cur pool; simp [pySample]
  | succ k ih =>
    intro cur pool
    cases pool with
    | nil => simp [pySample]
    | cons a as =>
      simp only [pySample]
      have := ih (cur + 1) ((a :: as).eraseIdx (r cur % (a :: as).length))
      simpa using Nat.succ_le_succ this

theorem dictInsert_length (g : List (String × Contact)) (k : String) (v : Contact) :
    (dictInsert g k v).length ≤ g.length + 1 := by
  simp only [dictInsert]
  split
  · simp
  · simp

theorem dictInsert_keys (g : List (String × Contact)) (k : String) (v : Contact) :
    ∀ x ∈ (dictInsert g k v).map Prod.fst, x ∈ g.map Prod.fst ∨ x = k := by
  intro x hx
  simp only [dictInsert] at hx
  split at hx
  · left
    rcases List.mem_map.mp hx with ⟨p, hp, hpx⟩
    rcases List.mem_map.mp hp with ⟨q, hq, hqp⟩
    have hq1 : p.1 = q.1 := by
      rw [← hqp]
      by_cases hqk : q.1 = k
      · simp [hqk]
      · simp [hqk]
    rw [← hpx, hq1]
    exact List.mem_map_of_mem _ hq
  · rw [List.map_append] at hx
    rcases List.mem_append.mp hx with h1 | h1
    · exact Or.inl h1
    · right
      simpa using h1

theorem dictInsert_keys_nodup (g : List (String × Contact)) (k : String)
    (v : Contact) (h : (g.map Prod.fst).Nodup) :
    ((dictInsert g k v).map Prod.fst).Nodup := by
  simp only [dictInsert]
  split
  · have hkeys : (g.map fun p => if p.1 = k then (k, v) else p).map Prod.fst =
        g.map Prod.fst := by
      rw [List.map_map]
      apply List.map_congr_left
      intro p _
      by_cases hpk : p.1 = k
      · simp [hpk]
      · simp [hpk]
    rw [hkeys]
    exact h
  · rename_i hcont
    have hkne : k ∉ g.map Prod.fst := by
      intro hk
      exact hcont (by simpa using hk)
    rw [List.map_append]
    simp only [List.map_cons, List.map_nil]
    exact List.Nodup.append h (List.nodup_singleton k)
      (by intro x hx hy; simp at hy; subst hy; exact hkne hx)

theorem insertContacts_length (installedApps : List String) (natR : ℕ → ℕ)
    (fakePhone fakeEmail : ℕ → String) :
    ∀ (names : List String) (cur idx : ℕ) (g : List (String × Contact)),
      (insertContacts installedApps natR fakePhone fakeEmail names cur idx g).length ≤
        g.length + names.length := by
  intro names
  induction names with
  | nil => intro cur idx g; simp [insertContacts]
  | cons nm rest ih =>
    intro cur idx g
    simp only [insertContacts]
    calc (insertContacts installedApps natR fakePhone fakeEmail rest (cur + 1)
          (idx + 1) (dictInsert g nm _)).length
        ≤ (dictInsert g nm _).length + rest.length := ih _ _ _
      _ ≤ g.length + 1 + rest.length := by
          have := dictInsert_length g nm
            (buildContact installedApps natR fakePhone fakeEmail cur idx)
          omega
      _ = g.length + (rest.length + 1) := by omega
      _ = g.length + (nm :: rest).length := by simp

theorem insertContacts_keys_nodup (installedApps : List String) (natR : ℕ → ℕ)
    (fakePhone fakeEmail : ℕ → String) :
    ∀ (names : List String) (cur idx : ℕ) (g : List (String × Contact)),
      (g.map Prod.fst).Nodup →
      ((insertContacts installedApps natR fakePhone fakeEmail names cur idx g).map
        Prod.fst).Nodup := by
  intro names
  induction names with
  | nil => intro cur idx g h; exact h
  | cons nm rest ih =>
    intro cur idx g h
    exact ih _ _ _ (dictInsert_keys_nodup g nm _ h)

theorem insertContacts_keys_sub (installedApps : List String) (natR : ℕ → ℕ)
    (fakePhone fakeEmail : ℕ → String) :
    ∀ (names : List String) (cur idx : ℕ) (g : List (String × Contact)),
      ∀ x ∈ (insertContacts installedApps natR fakePhone fakeEmail names cur idx
        g).map Prod.fst, x ∈ g.map Prod.fst ∨ x ∈ names := by
  intro names
  induction names with
  | nil => intro cur idx g x hx; exact Or.inl hx
  | cons nm rest ih =>
    intro cur idx g x hx
    rcases ih _ _ _ x hx with h1 | h1
    · rcases dictInsert_keys g nm _ x h1 with h2 | h2
      · exact Or.inl h2
      · exact Or.inr (by rw [h2]; exact List.mem_cons_self _ _)
    · exact Or.inr (List.mem_cons_of_mem _ h1)

theorem namePool_ne_owner (ownerName : String) (firstNames lastNames : List String) :
    ∀ n ∈ namePool ownerName firstNames lastNames, n ≠ ownerName := by
  intro n hn
  simp only [namePool, List.mem_flatMap] at hn
  rcases hn with ⟨fn, _, hn2⟩
  rcases List.mem_filterMap.mp hn2 with ⟨ln, _, hln⟩
  by_cases hne : fn ++ " " ++ ln ≠ ownerName
  · rw [if_pos hne] at hln
    have : fn ++ " " ++ ln = n := by simpa using hln
    rw [← this]
    exact hne
  · rw [if_neg hne] at hln
    cases hln

/-- The builder raises ValueError exactly for a negative network size; for a
nonnegative one it returns a graph, of at most networkSize entries, with
pairwise distinct keys. -/
theorem generate_social_graph_spec (ownerName : String)
    (firstNames lastNames : List String) (networkSize : ℤ)
    (installedApps : List String) (fakeName fakePhone fakeEmail : ℕ → String)
    (natR : ℕ → ℕ) :
    (networkSize < 0 →
      generate_social_graph ownerName firstNames lastNames networkSize
        installedApps fakeName fakePhone fakeEmail natR =
          Except.error PyError.valueError) ∧
    (0 ≤ networkSize →
      ∃ g, generate_social_graph ownerName firstNames lastNames networkSize
          installedApps fakeName fakePhone fakeEmail natR = Except.ok g ∧
        g.length ≤ networkSize.toNat ∧ (g.map Prod.fst).Nodup ∧
        ∀ nm ∈ g.map Prod.fst, nm ≠ ownerName ∨
          ∃ i < padCount ownerName firstNames lastNames networkSize,
            nm = fakeName i) := by
  constructor
  · intro hneg
    have hk : min ((namePool ownerName firstNames lastNames ++
        (List.range (padCount ownerName firstNames lastNames networkSize)).map
          fakeName).length : ℤ) networkSize < 0 :=
      lt_of_le_of_lt (min_le_right _ _) hneg
    simp only [generate_social_graph]
    rw [if_pos hk]
  · intro hpos
    have hk : ¬ (min ((namePool ownerName firstNames lastNames ++
        (List.range (padCount ownerName firstNames lastNames networkSize)).map
          fakeName).length : ℤ) networkSize < 0) := by
      have h1 : (0:ℤ) ≤ ((namePool ownerName firstNames lastNames ++
          (List.range (padCount ownerName firstNames lastNames networkSize)).map
            fakeName).length : ℤ) := Int.ofNat_nonneg _
      omega
    simp only [generate_social_graph]
    rw [if_neg hk]
    refine ⟨_, rfl, ?_, ?_, ?_⟩
    · calc (insertContacts installedApps natR fakePhone fakeEmail _ _ 0 []).length
          ≤ ([] : List (String × Contact)).length + _ :=
            insertContacts_length installedApps natR fakePhone fakeEmail _ _ _ []
        _ ≤ networkSize.toNat := by
            have h2 := pySample_length natR (min ((namePool ownerName firstNames
              lastNames ++ (List.range (padCount ownerName firstNames lastNames
                networkSize)).map fakeName).length : ℤ) networkSize).toNat 0
              (namePool ownerName firstNames lastNames ++
                (List.range (padCount ownerName firstNames lastNames
                  networkSize)).map fakeName)
            have h3 : (min ((namePool ownerName firstNames lastNames ++
                (List.range (padCount ownerName firstNames lastNames
                  networkSize)).map fakeName).length : ℤ) networkSize).toNat ≤
                networkSize.toNat := by
              apply Int.toNat_le_toNat
              exact min_le_right _ _
            simp only [List.length_nil, Nat.zero_add]
            omega
    · exact insertContacts_keys_nodup installedApps natR fakePhone fakeEmail
        _ _ _ [] (by simp)
    · intro nm hnm
      rcases insertContacts_keys_sub installedApps natR fakePhone fakeEmail
        _ _ _ [] nm hnm with h1 | h1
      · simp at h1
      · have hsel := pySample_mem natR _ 0 _ nm h1
        rcases List.mem_append.mp hsel with h2 | h2
        · exact Or.inl (namePool_ne_owner ownerName firstNames lastNames nm h2)
        · right
          rcases List.mem_map.mp h2 with ⟨i, hi, hnmi⟩
          exact ⟨i, List.mem_range.mp hi, hnmi.symm⟩

/-! ### Counting follow-up messages -/

theorem of_followShape (m : Message) (h : followShape m = true) :
    m.platform = "Messages (SMS)" ∧ m.direction = Direction.outgoing ∧
      m.body = followBody := by
  simp only [followShape, Bool.and_eq_true, beq_iff_eq, decide_eq_true_eq] at h
  exact ⟨h.1.1, h.1.2, h.2⟩

theorem count_filter_map (msgs : List Message) (x : ℕ) :
    msgs.countP (fun m => followShape m && (m.timestamp == x)) =
      ((msgs.filter followShape).map Message.timestamp).count x := by
  induction msgs with
  | nil => rfl
  | cons m ms ih =>
    rw [List.countP_cons, List.filter_cons]
    by_cases hs : followShape m = true
    · rw [if_pos hs, List.map_cons, List.count_cons]
      by_cases ht : m.timestamp = x
      · simp [hs, ht, ih]
      · simp [hs, ht, ih]
    · have hs2 : followShape m = false := by
        cases hx : followShape m
        · rfl
        · exact absurd hx hs
      rw [if_neg hs]
      simp [hs2, ih]

/-- From the order-preserving follow-up correspondence and the strict ordering
of call timestamps: each missed call has exactly one follow-up-shaped message
at its timestamp plus 300 s. -/
theorem followOK_exactly_one (r : RunResult) (hF : FollowOK r)
    (hs : List.Pairwise (· < ·) ((resCalls r).map Call.timestamp))
    (c : Call) (hc : c ∈ resCalls r) (hm : c.status = CallStatus.missed) :
    (resMsgs r).countP
      (fun m => followShape m && (m.timestamp == c.timestamp + 300)) = 1 := by
  rw [count_filter_map, hF]
  have hmapeq : ((resCalls r).filter fun c => decide (c.status = CallStatus.missed)).map
      (fun c => c.timestamp + 300) =
      (((resCalls r).filter fun c => decide (c.status = CallStatus.missed)).map
        Call.timestamp).map (fun t => t + 300) := by
    rw [List.map_map]
    rfl
  rw [hmapeq]
  have hinj : Function.Injective (fun t : ℕ => t + 300) := by
    intro a b hab
    simpa using hab
  have hcount := List.count_map_of_injective
    (((resCalls r).filter fun c => decide (c.status = CallStatus.missed)).map
      Call.timestamp) (fun t : ℕ => t + 300) hinj c.timestamp
  rw [hcount]
  have hsub : List.Sublist
      (((resCalls r).filter fun c =>
        decide (c.status = CallStatus.missed)).map Call.timestamp)
      ((resCalls r).map Call.timestamp) :=
    (List.filter_sublist _).map _
  have hnd : (((resCalls r).filter fun c =>
      decide (c.status = CallStatus.missed)).map Call.timestamp).Nodup :=
    (hs.sublist hsub).imp Nat.ne_of_lt
  have hmem : c.timestamp ∈ ((resCalls r).filter fun c =>
      decide (c.status = CallStatus.missed)).map Call.timestamp :=
    List.mem_map_of_mem _ (List.mem_filter.mpr ⟨hc, by simp [hm]⟩)
  have hle := List.nodup_iff_count_le_one.mp hnd c.timestamp
  have hge := List.count_pos_iff.mpr hmem
  omega

/-! ### Concrete runs used as witnesses and counterexamples -/

/-- A contact reachable only over SMS. -/
def exContactSMS : Contact :=
  { role := "Friend", platforms := ["Messages (SMS)"], topics := ["t"],
    phoneNumber := "555", email := "a@b" }

/-- A contact reachable only over the voice channel. -/
def exContactPhone : Contact :=
  { role := "Friend", platforms := ["Phone"], topics := ["t"],
    phoneNumber := "555", email := "a@b" }

/-- A one-topic scenario catalog with a single owner line. -/
def exScen : Scenarios :=
  { conversations := [("t", [{ role := "Owner", content := "hi" }])],
    dflt := [{ role := "Owner", content := "hi" }] }

/-- A short SMS-only run configuration. -/
def exParamsSMS : Params :=
  { ownerName := "Jane Doe", startDate := 0, endDate := 4000, numMessages := 5,
    graph := [("Alice Smith", exContactSMS)], scen := exScen, commonUrls := [] }

/-- A short voice-only run configuration. -/
def exParamsPhone : Params :=
  { ownerName := "Jane Doe", startDate := 0, endDate := 4000, numMessages := 5,
    graph := [("Alice Smith", exContactPhone)], scen := exScen, commonUrls := [] }

/-- An SMS run whose window closes just after the first gap. -/
def exParamsShort : Params :=
  { ownerName := "Jane Doe", startDate := 0, endDate := 1801, numMessages := 1,
    graph := [("Alice Smith", exContactSMS)], scen := exScen, commonUrls := [] }

/-- Zero draws, probability draws high (no missed calls, no extra artifacts). -/
def exOracleA : Oracle := { natR := fun _ => 0, uR := fun _ => 999, cancelFrom := none }

/-- Draws of one (an outgoing, hence connected, call), probability draws high. -/
def exOracleB : Oracle := { natR := fun _ => 1, uR := fun _ => 999, cancelFrom := none }

/-- Zero draws, probability draws low: incoming calls come out missed. -/
def exOracleMiss : Oracle := { natR := fun _ => 0, uR := fun _ => 0, cancelFrom := none }

/-- Like exOracleA but stop() is observed from the second poll onwards. -/
def exOracleCancel : Oracle :=
  { natR := fun _ => 0, uR := fun _ => 999, cancelFrom := some 1 }

/-- The SMS run: two messages, each with a location sample. -/
def exRunSMS : RunResult :=
  (runLoopFuel exParamsSMS exOracleA 10 (initState exParamsSMS)).getD RunResult.err

/-- The connected-call run: two calls, no messages, no location samples. -/
def exRunConn : RunResult :=
  (runLoopFuel exParamsPhone exOracleB 10 (initState exParamsPhone)).getD RunResult.err

/-- The missed-call run: two missed calls with their follow-up texts. -/
def exRunMiss : RunResult :=
  (runLoopFuel exParamsPhone exOracleMiss 10 (initState exParamsPhone)).getD
    RunResult.err

/-- The overshooting run: one message timed past endDate. -/
def exRunShort : RunResult :=
  (runLoopFuel exParamsShort exOracleA 10 (initState exParamsShort)).getD
    RunResult.err

/-- The cancelled run: one message emitted, then the poll fires. -/
def exRunCancel : RunResult :=
  (runLoopFuel exParamsSMS exOracleCancel 10 (initState exParamsSMS)).getD
    RunResult.err

/-! ### The claims -/

/-- C1 (counterexample).  The claim says every emitted Call has a GeoSample at
the identical timestamp.  In the connected-call run two calls are emitted but
the geo collection stays empty: the call event is recorded outside the burst
queue, so no location sample is ever taken at its timestamp. -/
theorem C1_counterexample :
    ∃ c ∈ resCalls exRunConn, ∀ g ∈ resGeo exRunConn,
      g.timestamp ≠ c.timestamp := by decide

/-- C1 (amended).  Every emitted Message, the missed-call follow-up included,
has a GeoSample with the identical timestamp; Calls do not receive one. -/
theorem C1_message_geo (P : Params) (o : Oracle) (n : ℕ) (r : RunResult)
    (h : runLoopFuel P o n (initState P) = some r) :
    ∀ m ∈ resMsgs r, ∃ g ∈ resGeo r, g.timestamp = m.timestamp :=
  (runFuel_coreOK P o n (initState P) r (inv_init P) h).msgs_geo

/-- C1 (witness): the amended statement evaluated on the SMS run. -/
theorem C1_witness :
    runLoopFuel exParamsSMS exOracleA 10 (initState exParamsSMS) = some exRunSMS ∧
      ∀ m ∈ resMsgs exRunSMS, ∃ g ∈ resGeo exRunSMS, g.timestamp = m.timestamp :=
  ⟨rfl, C1_message_geo exParamsSMS exOracleA 10 exRunSMS rfl⟩

/-- C2 (counterexample).  The claim says every emitted event has its timestamp
in [startTime, endTime).  In the overshooting run the burst message is emitted
at 1810 although endTime is 1801: burst sub-events are drained even after their
timestamps cross endTime. -/
theorem C2_counterexample :
    ∃ m ∈ resMsgs exRunShort, exParamsShort.endDate ≤ m.timestamp := by decide

/-- C2 (amended).  Every emitted event is timed at or after startTime, and
every Call is timed before endTime; Message and GeoSample timestamps may reach
or exceed endTime when a burst or a follow-up crosses it. -/
theorem C2_event_window (P : Params) (o : Oracle) (n : ℕ) (r : RunResult)
    (h : runLoopFuel P o n (initState P) = some r) :
    (∀ c ∈ resCalls r, P.startDate ≤ c.timestamp ∧ c.timestamp < P.endDate) ∧
    (∀ m ∈ resMsgs r, P.startDate ≤ m.timestamp) ∧
    (∀ g ∈ resGeo r, P.startDate ≤ g.timestamp) := by
  have hc := runFuel_coreOK P o n (initState P) r (inv_init P) h
  exact ⟨fun c hcm => ⟨hc.calls_lb c hcm, hc.calls_ub c hcm⟩, hc.msgs_lb, hc.geo_lb⟩

/-- C2 (witness): the amended statement evaluated on the missed-call run. -/
theorem C2_witness :
    runLoopFuel exParamsPhone exOracleMiss 10 (initState exParamsPhone) =
        some exRunMiss ∧
      ((∀ c ∈ resCalls exRunMiss, exParamsPhone.startDate ≤ c.timestamp ∧
          c.timestamp < exParamsPhone.endDate) ∧
        (∀ m ∈ resMsgs exRunMiss, exParamsPhone.startDate ≤ m.timestamp) ∧
        (∀ g ∈ resGeo exRunMiss, exParamsPhone.startDate ≤ g.timestamp)) :=
  ⟨rfl, C2_event_window exParamsPhone exOracleMiss 10 exRunMiss rfl⟩

/-- C3.  Every emitted Missed call has duration 0 and, because the follow-up is
enqueued and drained within the same loop iteration, exactly one follow-up
Outgoing message at the call's timestamp plus 300 s (strictly later and within
the five-minute window).  The scenario-catalog side condition rules out canned
lines that would forge the follow-up body. -/
theorem C3_missed_followup (P : Params) (o : Oracle) (n : ℕ) (r : RunResult)
    (hg : GoodScen P) (h : runLoopFuel P o n (initState P) = some r) :
    ∀ c ∈ resCalls r, c.status = CallStatus.missed →
      c.duration = 0 ∧
      (∃ m ∈ resMsgs r, m.direction = Direction.outgoing ∧
        c.timestamp < m.timestamp ∧ m.timestamp ≤ c.timestamp + 300) ∧
      (resMsgs r).countP
        (fun m => followShape m && (m.timestamp == c.timestamp + 300)) = 1 := by
  intro c hc hm
  have hcore := runFuel_coreOK P o n (initState P) r (inv_init P) h
  have hfol := runFuel_followOK P o hg n (initState P) r (invF_init P) h
  refine ⟨(hcore.missed_ok c hc hm).2, ?_, ?_⟩
  · rcases hcore.missed_follow c hc hm with ⟨m, hmm, hsh, hts⟩
    exact ⟨m, hmm, (of_followShape m hsh).2.1, by omega, by omega⟩
  · exact followOK_exactly_one r hfol hcore.calls_sorted c hc hm

/-- C3 (witness): the missed-call run satisfies the side condition and the
conclusion for both of its missed calls. -/
theorem C3_witness :
    GoodScen exParamsPhone ∧
      runLoopFuel exParamsPhone exOracleMiss 10 (initState exParamsPhone) =
        some exRunMiss ∧
      ∀ c ∈ resCalls exRunMiss, c.status = CallStatus.missed →
        c.duration = 0 ∧
        (∃ m ∈ resMsgs exRunMiss, m.direction = Direction.outgoing ∧
          c.timestamp < m.timestamp ∧ m.timestamp ≤ c.timestamp + 300) ∧
        (resMsgs exRunMiss).countP
          (fun m => followShape m && (m.timestamp == c.timestamp + 300)) = 1 :=
  ⟨⟨by decide, by decide⟩, rfl,
    C3_missed_followup exParamsPhone exOracleMiss 10 exRunMiss
      ⟨by decide, by decide⟩ rfl⟩

/-- C4.  With a positive message target (the documented input contract), a run
never emits more messages than the target; calls accumulate in their own
collection and never advance the message counter. -/
theorem C4_message_quota (P : Params) (o : Oracle) (n : ℕ) (r : RunResult)
    (hN : 1 ≤ P.numMessages) (h : runLoopFuel P o n (initState P) = some r) :
    (resMsgs r).length ≤ P.numMessages := by
  refine runFuel_cnt P o n (initState P) r ?_ ?_ h
  · rfl
  · show 0 < P.numMessages
    omega

/-- C4 (witness): the quota bound evaluated on the SMS run. -/
theorem C4_witness :
    1 ≤ exParamsSMS.numMessages ∧
      runLoopFuel exParamsSMS exOracleA 10 (initState exParamsSMS) =
        some exRunSMS ∧
      (resMsgs exRunSMS).length ≤ exParamsSMS.numMessages :=
  ⟨by decide, rfl, C4_message_quota exParamsSMS exOracleA 10 exRunSMS (by decide) rfl⟩

/-- C5.  The stepping loop terminates from the initial state of every
configuration and oracle: some fuel makes the fueled loop return an outcome.
Every continuing iteration either advances the clock by at least the minimum
gap of 1800 s or strictly shrinks the burst queue. -/
theorem C5_termination (P : Params) (o : Oracle) :
    ∃ n, (runLoopFuel P o n (initState P)).isSome :=
  runLoop_term P o (initState P)

/-- C6 (counterexample).  The claim says the builder fails with a
ConfigurationError when networkSize ≤ 0.  At networkSize = 0 it instead returns
an empty graph normally; no ConfigurationError exists anywhere in the code. -/
theorem C6_counterexample :
    (0:ℤ) ≤ 0 ∧
      generate_social_graph "Jane Doe" [] [] 0 [] (fun _ => "X") (fun _ => "P")
        (fun _ => "E") (fun _ => 0) = Except.ok [] := by
  constructor
  · decide
  · rfl

/-- C6 (amended).  The builder never raises a ConfigurationError: the padding
loop always reaches the requested size, so for every nonnegative networkSize it
returns a duplicate-free graph of at most networkSize contacts (fewer when the
sampled names collide), and a negative networkSize fails with the ValueError
that random.sample raises on a negative sample size. -/
theorem C6_builder_result (ownerName : String) (firstNames lastNames : List String)
    (networkSize : ℤ) (installedApps : List String)
    (fakeName fakePhone fakeEmail : ℕ → String) (natR : ℕ → ℕ) :
    (networkSize < 0 →
      generate_social_graph ownerName firstNames lastNames networkSize
        installedApps fakeName fakePhone fakeEmail natR =
          Except.error PyError.valueError) ∧
    (0 ≤ networkSize →
      ∃ g, generate_social_graph ownerName firstNames lastNames networkSize
          installedApps fakeName fakePhone fakeEmail natR = Except.ok g ∧
        g.length ≤ networkSize.toNat ∧ (g.map Prod.fst).Nodup) := by
  obtain ⟨h1, h2⟩ := generate_social_graph_spec ownerName firstNames lastNames
    networkSize installedApps fakeName fakePhone fakeEmail natR
  refine ⟨h1, fun hpos => ?_⟩
  rcases h2 hpos with ⟨g, hok, hlen, hnd, _⟩
  exact ⟨g, hok, hlen, hnd⟩

/-- C6 (witness): both halves at concrete sizes. -/
theorem C6_witness :
    ((-1:ℤ) < 0 ∧
      generate_social_graph "X" ["A"] ["B"] (-1) [] (fun _ => "N") (fun _ => "P")
        (fun _ => "E") (fun _ => 0) = Except.error PyError.valueError) ∧
    ((0:ℤ) ≤ 2 ∧
      ∃ g, generate_social_graph "X" ["A"] ["B", "C"] 2 [] (fun _ => "N")
          (fun _ => "P") (fun _ => "E") (fun _ => 0) = Except.ok g ∧
        g.length ≤ (2:ℤ).toNat ∧ (g.map Prod.fst).Nodup) :=
  ⟨⟨by decide,
    (C6_builder_result "X" ["A"] ["B"] (-1) [] (fun _ => "N") (fun _ => "P")
      (fun _ => "E") (fun _ => 0)).1 (by decide)⟩,
   ⟨by decide,
    (C6_builder_result "X" ["A"] ["B", "C"] 2 [] (fun _ => "N") (fun _ => "P")
      (fun _ => "E") (fun _ => 0)).2 (by decide)⟩⟩

/-- C7 (counterexample).  The claim says every contact's display name differs
from ownerName.  The name-pool filter only guards the scenario cross product:
a synthetic faker name is inserted unchecked, so a faker collision puts the
owner into the graph. -/
theorem C7_counterexample :
    ∃ p ∈ (generate_social_graph "Jane Doe" [] [] 1 [] (fun _ => "Jane Doe")
      (fun _ => "P") (fun _ => "E") (fun _ => 0)).toOption.getD [],
      p.1 = "Jane Doe" := by decide

/-- C7 (amended).  The graph never contains duplicate identities, and every
contact name either differs from ownerName or is one of the synthetic padded
names (which are not checked against ownerName). -/
theorem C7_graph_names (ownerName : String) (firstNames lastNames : List String)
    (networkSize : ℤ) (installedApps : List String)
    (fakeName fakePhone fakeEmail : ℕ → String) (natR : ℕ → ℕ)
    (g : List (String × Contact)) (hpos : 0 ≤ networkSize)
    (h : generate_social_graph ownerName firstNames lastNames networkSize
      installedApps fakeName fakePhone fakeEmail natR = Except.ok g) :
    (g.map Prod.fst).Nodup ∧
      ∀ nm ∈ g.map Prod.fst, nm ≠ ownerName ∨
        ∃ i < padCount ownerName firstNames lastNames networkSize,
          nm = fakeName i := by
  obtain ⟨_, h2⟩ := generate_social_graph_spec ownerName firstNames lastNames
    networkSize installedApps fakeName fakePhone fakeEmail natR
  rcases h2 hpos with ⟨g2, hok, _, hnd, hnames⟩
  have hg : g = g2 := by
    rw [h] at hok
    simpa using hok
  subst hg
  exact ⟨hnd, hnames⟩

/-- C7 (witness): the amended statement at a concrete graph. -/
theorem C7_witness :
    (0:ℤ) ≤ 2 ∧
      generate_social_graph "X" ["A"] ["B", "C"] 2 [] (fun _ => "N")
          (fun _ => "P") (fun _ => "E") (fun _ => 0) =
        Except.ok ((generate_social_graph "X" ["A"] ["B", "C"] 2 []
          (fun _ => "N") (fun _ => "P") (fun _ => "E")
          (fun _ => 0)).toOption.getD []) ∧
      (((generate_social_graph "X" ["A"] ["B", "C"] 2 [] (fun _ => "N")
          (fun _ => "P") (fun _ => "E") (fun _ => 0)).toOption.getD []).map
        Prod.fst).Nodup ∧
      ∀ nm ∈ ((generate_social_graph "X" ["A"] ["B", "C"] 2 [] (fun _ => "N")
          (fun _ => "P") (fun _ => "E") (fun _ => 0)).toOption.getD []).map
          Prod.fst,
        nm ≠ "X" ∨ ∃ i < padCount "X" ["A"] ["B", "C"] 2, nm = (fun _ => "N") i :=
  ⟨by decide, rfl,
    C7_graph_names "X" ["A"] ["B", "C"] 2 [] (fun _ => "N") (fun _ => "P")
      (fun _ => "E") (fun _ => 0) _ (by decide) rfl⟩

/-- C8.  get_location_for_time is a function of the timestamp and the two
jitter draws alone: the carried last_pos state is written but never read, so
two calls with the same timestamp and the same draws return the same
coordinate from any two engine states. -/
theorem C8_location_deterministic (st1 st2 : GeoState) (t u1 u2 : ℕ) :
    (get_location_for_time st1 t u1 u2).1 = (get_location_for_time st2 t u1 u2).1 :=
  rfl

/-- C9 (counterexample).  The claim says cancellation hands the partial results
off to the artifact-writing stage.  The cancelled run has a nonempty message
collection at the cancellation point, yet the bare return skips the whole
artifact-writing stage, handing off nothing. -/
theorem C9_counterexample :
    resMsgs exRunCancel ≠ [] ∧ handedOff exRunCancel = none := by decide

/-- C9 (amended).  Cancellation stops the loop cooperatively, but the partial
collections accumulated so far are discarded: a cancelled outcome hands
nothing to the artifact writers. -/
theorem C9_cancel_discards (P : Params) (o : Oracle) (n : ℕ)
    (msgs : List Message) (calls : List Call) (geo : List GeoSample)
    (browser : List BrowserEntry)
    (h : runLoopFuel P o n (initState P) =
      some (RunResult.cancelled msgs calls geo browser)) :
    handedOff (RunResult.cancelled msgs calls geo browser) = none := rfl

/-- C9 (witness): the amended statement on the cancelled run. -/
theorem C9_witness :
    runLoopFuel exParamsSMS exOracleCancel 10 (initState exParamsSMS) =
        some (RunResult.cancelled (resMsgs exRunCancel) (resCalls exRunCancel)
          (resGeo exRunCancel) (RunResult.cancelled (resMsgs exRunCancel)
            (resCalls exRunCancel) (resGeo exRunCancel) [] |> fun _ =>
              match exRunCancel with
              | RunResult.cancelled _ _ _ b => b
              | _ => [])) ∧
      handedOff (RunResult.cancelled (resMsgs exRunCancel) (resCalls exRunCancel)
        (resGeo exRunCancel) (match exRunCancel with
          | RunResult.cancelled _ _ _ b => b
          | _ => [])) = none :=
  ⟨rfl, C9_cancel_discards exParamsSMS exOracleCancel 10 _ _ _ _ rfl⟩

/-- C10.  A Missed call is always Incoming (an outgoing call is never marked
missed), and the follow-up message scheduled for it always uses the default
SMS platform with the fixed apology body, five minutes later, regardless of the
contact's platform set. -/
theorem C10_missed_shape (P : Params) (o : Oracle) (n : ℕ) (r : RunResult)
    (h : runLoopFuel P o n (initState P) = some r) :
    ∀ c ∈ resCalls r, c.status = CallStatus.missed →
      c.direction = Direction.incoming ∧
      ∃ m ∈ resMsgs r, m.platform = "Messages (SMS)" ∧
        m.direction = Direction.outgoing ∧ m.body = followBody ∧
        m.timestamp = c.timestamp + 300 := by
  intro c hc hm
  have hcore := runFuel_coreOK P o n (initState P) r (inv_init P) h
  refine ⟨(hcore.missed_ok c hc hm).1, ?_⟩
  rcases hcore.missed_follow c hc hm with ⟨m, hmm, hsh, hts⟩
  obtain ⟨h1, h2, h3⟩ := of_followShape m hsh
  exact ⟨m, hmm, h1, h2, h3, hts⟩

/-- C10 (witness): the statement evaluated on the missed-call run. -/
theorem C10_witness :
    runLoopFuel exParamsPhone exOracleMiss 10 (initState exParamsPhone) =
        some exRunMiss ∧
      ∀ c ∈ resCalls exRunMiss, c.status = CallStatus.missed →
        c.direction = Direction.incoming ∧
        ∃ m ∈ resMsgs exRunMiss, m.platform = "Messages (SMS)" ∧
          m.direction = Direction.outgoing ∧ m.body = followBody ∧
          m.timestamp = c.timestamp + 300 :=
  ⟨rfl, C10_missed_shape exParamsPhone exOracleMiss 10 exRunMiss rfl⟩

end MFIG
